import Mathlib

/-!
Verification of the VisualQC T1-MRI rating workflow (`visualqc/t1_mri.py`).

The Python module is shallowly embedded below.  Strings are modelled as
lists of characters (`Str`), so that the comma/plus/newline splitting done
by the persistence layer can be reasoned about directly.  Python `dict`s
(which preserve insertion order, update in place, and append fresh keys)
are modelled as association lists with `dictInsert`/`dictLookup`/`dictErase`.

Parts of the repository that the workflow calls but that live outside the
`t1_mri.py` module (the configuration constants, the ratings-file parser
`restore_previous_ratings`, the paths helper `get_ratings_path_info`) are
modelled from the specification; each such definition carries a doc
comment starting with `Modelled from the spec:`.
-/

/-!
Conventions of the embedding.  The `visualqc.config` constants are
modelled from the spec.  For the matplotlib `CheckButtons` widget, the
state is the list of per-label booleans returned by `get_status()`;
`set_active(i)` toggles entry `i` and then fires the `save_issues`
callback with the label text.  The `_toggle_visibility_checkbox` helper
flips the visibility of the cross lines of one checkbox, which is exactly
what `get_status` reports, so it is modelled as flipping (here: clearing,
since it is only invoked on active boxes) the boolean at that index.
Definitions come first, then the theorems.
-/

/-- Strings as explicit character lists (Python `str`). -/
abbrev Str := List Char

/-- Python `str.split(sep)` for a one-character separator: splits on every
occurrence, keeping empty pieces; splitting the empty string yields one
empty piece. -/
def splitOnChar (c : Char) : Str → List Str
  | [] => [[]]
  | x :: xs =>
    match splitOnChar c xs with
    | [] => [[]]
    | y :: ys => if x = c then [] :: y :: ys else (x :: y) :: ys

/-- Python `sep.join(parts)` for a one-character separator. -/
def joinChar (c : Char) : List Str → Str
  | [] => []
  | [s] => s
  | s :: t :: rest => s ++ c :: joinChar c (t :: rest)

/-- Python `d[k]`, as an `Option`: first (unique) entry with the given key. -/
def dictLookup (d : List (Str × β)) (k : Str) : Option β :=
  match d with
  | [] => none
  | p :: rest => if p.1 = k then some p.2 else dictLookup rest k

/-- Python `d[k] = v`: updates the entry in place if the key is present
(keeping its position), otherwise appends a fresh entry. -/
def dictInsert (d : List (Str × β)) (k : Str) (v : β) : List (Str × β) :=
  match d with
  | [] => [(k, v)]
  | p :: rest => if p.1 = k then (k, v) :: rest else p :: dictInsert rest k v

/-- Python `d.pop(k)` (ignoring the returned value). -/
def dictErase (d : List (Str × β)) (k : Str) : List (Str × β) :=
  match d with
  | [] => []
  | p :: rest => if p.1 = k then rest else p :: dictErase rest k

/-- The keys of a dictionary, in insertion order. -/
def dictKeys (d : List (Str × β)) : List Str := d.map Prod.fst

/-- Modelled from the spec: `cfg.t1_mri_pass_indicator`, the reserved
vocabulary label meaning "pass / no issues". -/
def t1_mri_pass_indicator : Str := ("Pass").data

/-- Modelled from the spec: `cfg.t1_mri_default_issue_list`, the fixed
ordered issue vocabulary, containing exactly one reserved pass label. -/
def t1_mri_default_issue_list : List Str :=
  [("Motion").data, ("Ghosting").data, ("Ringing").data, ("Pass").data]

/-- Modelled from the spec: `cfg.ratings_not_to_be_recorded` — rating
values that must never be recorded for a subject; per the spec an empty
rating-set can never mark a subject complete. -/
def ratings_not_to_be_recorded : List (List Str) := [[]]

/-- Modelled from the spec: `cfg.textbox_initial_text`, the placeholder
the notes box is reset to between subjects. -/
def textbox_initial_text : Str := []

/-- The interface configuration: the issue vocabulary handed to the
constructor and the reserved pass label. -/
structure RatingCfg where
  issue_list : List Str
  pass_indicator : Str
deriving DecidableEq

/-- Python `list.index`: index of the first occurrence. -/
def idx_of (x : Str) : List Str → Nat
  | [] => 0
  | y :: ys => if y = x then 0 else idx_of x ys + 1

/-- `self._index_pass`, computed in `add_checkboxes` as
`issue_list.index(pass_indicator)`. -/
def index_pass (cfg : RatingCfg) : Nat := idx_of cfg.pass_indicator cfg.issue_list

/-- The traversal inside `clear_checkboxes`: every active box is toggled
off, except (when `except_pass` is set) the box at `index_pass`. -/
def clear_from (cfg : RatingCfg) (except_pass : Bool) : Nat → List Bool → List Bool
  | _, [] => []
  | i, b :: rest =>
    (if except_pass = true ∧ i = index_pass cfg then b else false)
      :: clear_from cfg except_pass (i + 1) rest

/-- `T1MriInterface.clear_checkboxes`. -/
def clear_checkboxes (cfg : RatingCfg) (cb : List Bool) (except_pass : Bool) : List Bool :=
  clear_from cfg except_pass 0 cb

/-- `T1MriInterface.clear_pass_only_if_on`. -/
def clear_pass_only_if_on (cfg : RatingCfg) (cb : List Bool) : List Bool :=
  if cb.getD (index_pass cfg) false then cb.set (index_pass cfg) false else cb

/-- `T1MriInterface.save_issues`, the checkbox `on_clicked` callback. -/
def save_issues (cfg : RatingCfg) (cb : List Bool) (label : Str) : List Bool :=
  if label = cfg.pass_indicator then clear_checkboxes cfg cb true
  else clear_pass_only_if_on cfg cb

/-- `CheckButtons.set_active(i)`: toggles the status at `i`, then fires
`save_issues` with the label text at `i`. -/
def set_active (cfg : RatingCfg) (cb : List Bool) (i : Nat) : List Bool :=
  save_issues cfg (cb.set i (! cb.getD i false)) (cfg.issue_list.getD i [])

/-- `T1MriInterface.get_ratings`: the labels whose checkbox is active.
(The widget keeps the status list the same length as the label list.) -/
def get_ratings (cfg : RatingCfg) (cb : List Bool) : List Str :=
  ((cfg.issue_list.zip cb).filter (fun p => p.2)).map Prod.fst

/-- `T1MriInterface.allowed_to_advance`: at least one checkbox checked. -/
def allowed_to_advance (cb : List Bool) : Bool := cb.any id

/-- The default interface configuration used by `RatingWorkflowT1.add_UI`
(the workflow passes `cfg.t1_mri_default_issue_list` as the issue list). -/
def default_rating_cfg : RatingCfg :=
  ⟨t1_mri_default_issue_list, t1_mri_pass_indicator⟩

/-- `_plus_join`: joins a rating's label set with the plus delimiter. -/
def plus_join (label_set : List Str) : Str := joinChar '+' label_set

/-- One serialized row: `'{},{},{}'.format(sid, _plus_join(rating_set), notes)`. -/
def format_row (sid : Str) (rating_set : List Str) (nts : Str) : Str :=
  sid ++ ',' :: (plus_join rating_set ++ ',' :: nts)

/-- The rows written by `save_ratings`, one per entry of the ratings dict,
in dict iteration order; `none` models the `KeyError` raised by
`self.notes[sid]` when a rated subject has no notes entry. -/
def save_rows : List (Str × List Str) → List (Str × Str) → Option (List Str)
  | [], _ => some []
  | p :: rest, notes =>
    match dictLookup notes p.1, save_rows rest notes with
    | some n, some rs => some (format_row p.1 p.2 n :: rs)
    | _, _ => none

/-- The full file contents built by `save_ratings`: `'\n'.join(rows)`. -/
def save_lines (ratings : List (Str × List Str)) (notes : List (Str × Str)) :
    Option Str :=
  (save_rows ratings notes).map (joinChar '\n')

/-- Modelled from the spec: one line of the session file parses as
`subject_id,label1+label2+...,notes_text` (field delimiter comma,
multi-label delimiter plus); a line without exactly three fields is a
parse failure and is skipped. -/
def parse_line (line : Str) : Option (Str × List Str × Str) :=
  match splitOnChar ',' line with
  | [sid, labels, nts] => some (sid, splitOnChar '+' labels, nts)
  | _ => none

/-- Modelled from the spec: the parsing half of
`visualqc.utils.restore_previous_ratings` — best-effort parse of the
session file into the ratings and notes mappings, skipping invalid lines. -/
def parse_ratings_file (content : Str) :
    List (Str × List Str) × List (Str × Str) :=
  (((splitOnChar '\n' content).filterMap parse_line).foldl
      (fun d r => dictInsert d r.1 r.2.1) [],
   ((splitOnChar '\n' content).filterMap parse_line).foldl
      (fun d r => dictInsert d r.1 r.2.2) [])

/-- Does this subject carry a non-empty recorded rating? -/
def has_nonempty_rating (ratings : List (Str × List Str)) (sid : Str) : Bool :=
  match dictLookup ratings sid with
  | some r => ! r.isEmpty
  | none => false

/-- Modelled from the spec: the incomplete list is the full subject list
minus the subjects with a non-empty restored rating, order preserved. -/
def incomplete_of (all : List Str) (ratings : List (Str × List Str)) : List Str :=
  all.filter (fun sid => ! has_nonempty_rating ratings sid)

/-- A flat filesystem: mapping from path to file contents. -/
abbrev FileStore := List (Str × Str)

/-- Modelled from the spec: `visualqc.utils.get_ratings_path_info` returns
the session ratings file path and the backup path written alongside it
before each overwrite. -/
def get_ratings_path_info : Str × Str :=
  (("ratings_rate_mri.csv").data, ("prev_ratings_backup.csv").data)

/-- Modelled from the spec: `visualqc.utils.restore_previous_ratings` —
load the prior session file if present (else start empty) and derive the
incomplete list from the full subject list. -/
def restore_previous_ratings (fs : FileStore) (id_list : List Str) :
    List (Str × List Str) × List (Str × Str) × List Str :=
  match dictLookup fs get_ratings_path_info.1 with
  | none => ([], [], id_list)
  | some content =>
    let parsed := parse_ratings_file content
    (parsed.1, parsed.2, incomplete_of id_list parsed.1)

/-- The result of one `save_ratings` call: the filesystem afterwards and
the raised exception message, if any. -/
structure SaveOutcome where
  fs : FileStore
  err : Option Str
deriving DecidableEq

/-- The `IOError` message raised by `save_ratings` on a failed write:
"Error in saving ratings to file!! Backup might be helpful at: " followed
by the backup path. -/
def save_error_msg (backup_path : Str) : Str :=
  ("Error in saving ratings to file!! Backup might be helpful at: ").data
    ++ backup_path

/-- The `KeyError` raised while building the rows when a rated subject has
no notes entry (this happens before the `try` block). -/
def key_error_msg : Str := ("KeyError: missing notes entry").data

/-- `RatingWorkflowT1.save_ratings`.  `write_ok` is the disk oracle for
the `open`/`write` inside the `try` block: when false the write raises,
the handler re-raises an `IOError` naming the backup path, and the target
file is untouched. -/
def save_ratings (write_ok : Bool) (ratings : List (Str × List Str))
    (notes : List (Str × Str)) (fs : FileStore) : SaveOutcome :=
  let ratings_file := get_ratings_path_info.1
  let prev_ratings_backup := get_ratings_path_info.2
  let fs1 := match dictLookup fs ratings_file with
             | some content => dictInsert fs prev_ratings_backup content
             | none => fs
  match save_lines ratings notes with
  | none => ⟨fs1, some key_error_msg⟩
  | some lines =>
    if write_ok then ⟨dictInsert fs1 ratings_file lines, none⟩
    else ⟨fs1, some (save_error_msg prev_ratings_backup)⟩

/-- A field that may appear between delimiters: contains neither the field
delimiter nor a newline. -/
def clean_field (s : Str) : Bool := ! s.any (fun c => c == ',' || c == '\n')

/-- A vocabulary label: a clean field that also avoids the multi-label
delimiter. -/
def clean_label (s : Str) : Bool := clean_field s && ! s.any (fun c => c == '+')

/-- One well-formed ratings entry: clean subject id, non-empty label set,
clean labels. -/
def wf_entry (p : Str × List Str) : Bool :=
  clean_field p.1 && ! p.2.isEmpty && p.2.all clean_label

/-- The notes entry for a key exists and is a clean field. -/
def clean_notes_at (notes : List (Str × Str)) (k : Str) : Bool :=
  match dictLookup notes k with
  | some n => clean_field n
  | none => false

/-- Well-formedness of an in-memory session for serialization: every
ratings entry is well formed, subject ids are unique (a dict invariant),
and every rated subject has a clean notes entry. -/
def WFSession (ratings : List (Str × List Str)) (notes : List (Str × Str)) : Prop :=
  (∀ p ∈ ratings, wf_entry p = true)
  ∧ (dictKeys ratings).Nodup
  ∧ (∀ p ∈ ratings, clean_notes_at notes p.1 = true)

instance (ratings : List (Str × List Str)) (notes : List (Str × Str)) :
    Decidable (WFSession ratings notes) := by
  unfold WFSession
  infer_instance

/-- The subject-id field of a serialized row: everything before the first
field delimiter. -/
def id_field (row : Str) : Str := row.takeWhile (fun c => ! (c == ','))

/-- Messages printed to the rater that the claims refer to. -/
inductive Output where
  | pleaseFinishRating
deriving DecidableEq

/-- The session-scoped mutable state of `RatingWorkflowT1` together with
the checkbox/notes state of its `T1MriInterface`. -/
structure WorkflowState where
  checkbox : List Bool
  user_notes : Str
  ratings : List (Str × List Str)
  notes : List (Str × Str)
  incomplete_list : List Str
  current_subject_id : Str
  quit_now : Bool
  printed : List Output
deriving DecidableEq

/-- `T1MriInterface.reset_figure`: clears all checkboxes
(`clear_checkboxes()` with `except_pass=False`) and resets the notes box
to its placeholder. -/
def reset_figure (cfg : RatingCfg) (st : WorkflowState) : WorkflowState :=
  {st with checkbox := clear_checkboxes cfg st.checkbox false,
           user_notes := textbox_initial_text}

/-- `RatingWorkflowT1.capture_user_input`: writes the current ratings and
notes for the current subject, always together. -/
def capture_user_input (cfg : RatingCfg) (st : WorkflowState) : WorkflowState :=
  {st with
    ratings := dictInsert st.ratings st.current_subject_id
      (get_ratings cfg st.checkbox),
    notes := dictInsert st.notes st.current_subject_id st.user_notes}

/-- `RatingWorkflowT1.prepare_to_advance`: capture input, reset the
figure, stop the blocking event loop. -/
def prepare_to_advance (cfg : RatingCfg) (st : WorkflowState) : WorkflowState :=
  reset_figure cfg (capture_user_input cfg st)

/-- `RatingWorkflowT1.quit` ("terminator"): gated by
`allowed_to_advance`; on rejection only the warning is printed. -/
def quit (cfg : RatingCfg) (st : WorkflowState) : WorkflowState :=
  if allowed_to_advance st.checkbox then
    {prepare_to_advance cfg st with quit_now := true}
  else
    {st with printed := st.printed ++ [Output.pleaseFinishRating]}

/-- `RatingWorkflowT1.next` ("advancer"): same gate as `quit`. -/
def next (cfg : RatingCfg) (st : WorkflowState) : WorkflowState :=
  if allowed_to_advance st.checkbox then
    {prepare_to_advance cfg st with quit_now := false}
  else
    {st with printed := st.printed ++ [Output.pleaseFinishRating]}

/-- One rater interaction while a subject is displayed. -/
inductive Event where
  | toggle (i : Nat)
  | setNotes (s : Str)
  | pressNext
  | pressQuit
deriving DecidableEq

/-- A checkbox toggle applied to the workflow state. -/
def ws_toggle (cfg : RatingCfg) (st : WorkflowState) (i : Nat) : WorkflowState :=
  {st with checkbox := set_active cfg st.checkbox i}

/-- Typing in the notes box. -/
def ws_set_notes (st : WorkflowState) (s : Str) : WorkflowState :=
  {st with user_notes := s}

/-- `display_data`'s blocking event loop: processes the rater's events
until an accepted next/quit stops it (`stop_event_loop` is called only
inside `prepare_to_advance`); `none` when the script ends with no
accepted event (the real UI would block forever). -/
def run_events (cfg : RatingCfg) : List Event → WorkflowState → Option WorkflowState
  | [], _ => none
  | e :: rest, st =>
    match e with
    | .toggle i => run_events cfg rest (ws_toggle cfg st i)
    | .setNotes s => run_events cfg rest (ws_set_notes st s)
    | .pressNext =>
      if allowed_to_advance st.checkbox then some (next cfg st)
      else run_events cfg rest (next cfg st)
    | .pressQuit =>
      if allowed_to_advance st.checkbox then some (quit cfg st)
      else run_events cfg rest (quit cfg st)

/-- An image volume, abstracted to its voxel values. -/
abbrev Volume := List Int

/-- `np.count_nonzero`. -/
def count_nonzero (v : Volume) : Nat := (v.filter (fun x => ! (x == 0))).length

/-- `RatingWorkflowT1.load_data`: reads the image (`read_image` raises on
an unreadable input, modelled by the loader returning `Except.error`, and
the exception propagates), and flags an all-zero volume to be skipped. -/
def load_data (loader : Str → Except Str Volume) (subject_id : Str) :
    Except Str (Volume × Bool) :=
  match loader subject_id with
  | .error e => .error e
  | .ok t1_mri => .ok (t1_mri, count_nonzero t1_mri == 0)

/-- What aborts a run. -/
inductive RunError where
  | loadFail (msg : Str)
  | uiBlocked
deriving DecidableEq

/-- Observable actions of one run, used by the temporal claims. -/
inductive RunAction where
  | skippedSubject (sid : Str)
  | reviewedSubject (sid : Str)
  | calledSave
deriving DecidableEq

/-- Result of the review loop. -/
inductive LoopResult where
  | ok (st : WorkflowState) (tr : List RunAction)
  | err (e : RunError)
deriving DecidableEq

/-- `RatingWorkflowT1.loop_through_subjects`: for each subject of the
incomplete list — set it current, load (a load error propagates), skip an
empty volume and continue, otherwise display and block until an accepted
next/quit; afterwards pop a rating that is in
`cfg.ratings_not_to_be_recorded`, and break if the rater quit. -/
def loop_through_subjects (cfg : RatingCfg) (loader : Str → Except Str Volume)
    (script : Str → List Event) :
    List Str → WorkflowState → List RunAction → LoopResult
  | [], st, tr => .ok st tr
  | subject_id :: rest, st, tr =>
    let st0 := {st with current_subject_id := subject_id}
    match load_data loader subject_id with
    | .error e => .err (.loadFail e)
    | .ok (_, skip_subject) =>
      if skip_subject then
        loop_through_subjects cfg loader script rest st0
          (tr ++ [.skippedSubject subject_id])
      else
        match run_events cfg (script subject_id) st0 with
        | none => .err .uiBlocked
        | some st1 =>
          let st2 :=
            if ((dictLookup st1.ratings subject_id).getD [])
                ∈ ratings_not_to_be_recorded then
              {st1 with ratings := dictErase st1.ratings subject_id}
            else st1
          if st2.quit_now then .ok st2 (tr ++ [.reviewedSubject subject_id])
          else loop_through_subjects cfg loader script rest st2
            (tr ++ [.reviewedSubject subject_id])

/-- The workflow/UI state right after `prepare_UI` and `restore_ratings`:
all checkboxes inactive (`actives = [False] * len(issue_list)`), notes box
at its placeholder, nothing printed yet. -/
def initial_state (cfg : RatingCfg) (ratings : List (Str × List Str))
    (notes : List (Str × Str)) (incomplete : List Str) : WorkflowState :=
  ⟨List.replicate cfg.issue_list.length false, textbox_initial_text,
   ratings, notes, incomplete, [], false, []⟩

/-- The observable outcome of a completed `RatingWorkflowT1.run`. -/
structure RunOut where
  state : WorkflowState
  fs : FileStore
  trace : List RunAction
  saveErr : Option Str
deriving DecidableEq

/-- Result of `RatingWorkflowT1.run`. -/
inductive RunResult where
  | ok (r : RunOut)
  | err (e : RunError)
deriving DecidableEq

/-- `RatingWorkflowT1.run`: `preprocess` (restore prior ratings),
`loop_through_subjects`, then `cleanup`, whose only persistence effect is
the single `save_ratings` call. -/
def run (cfg : RatingCfg) (loader : Str → Except Str Volume)
    (script : Str → List Event) (write_ok : Bool)
    (id_list : List Str) (fs : FileStore) : RunResult :=
  match loop_through_subjects cfg loader script
      (restore_previous_ratings fs id_list).2.2
      (initial_state cfg (restore_previous_ratings fs id_list).1
        (restore_previous_ratings fs id_list).2.1
        (restore_previous_ratings fs id_list).2.2) [] with
  | .err e => .err e
  | .ok st tr =>
    .ok ⟨st, (save_ratings write_ok st.ratings st.notes fs).fs,
         tr ++ [RunAction.calledSave],
         (save_ratings write_ok st.ratings st.notes fs).err⟩

/-- The layout fields computed by `RatingWorkflowT1.init_layout`. -/
structure LayoutCfg where
  views : List Nat
  num_slices_per_view : Nat
  num_rows_per_view : Nat
  num_rows : Nat
  num_cols : Nat
deriving DecidableEq

/-- `RatingWorkflowT1.init_layout`:
`num_rows = len(views) * num_rows_per_view` and
`num_cols = int((len(views) * num_slices_per_view) / num_rows)` — a plain
truncating division, with no divisibility validation and no error path. -/
def init_layout (views : List Nat)
    (num_rows_per_view num_slices_per_view : Nat) : LayoutCfg :=
  ⟨views, num_slices_per_view, num_rows_per_view,
   views.length * num_rows_per_view,
   (views.length * num_slices_per_view) / (views.length * num_rows_per_view)⟩

/-- `display_data` chooses slices via
`pick_slices(img, self.views, self.num_slices_per_view)`; the rows-per-view
setting is not an argument. -/
def chosen_slices (pick : Volume → List Nat → Nat → List (Nat × Nat))
    (L : LayoutCfg) (img : Volume) : List (Nat × Nat) :=
  pick img L.views L.num_slices_per_view

/-- Number of `save_ratings` calls recorded in a trace. -/
def count_saves : List RunAction → Nat
  | [] => 0
  | a :: rest => (if a = RunAction.calledSave then 1 else 0) + count_saves rest

/-- A concrete completed run used by the C6 witness. -/
def c6_example_result : RunOut :=
  ⟨⟨[false, false, false, false], [], [], [], [], [], false, []⟩,
   [(get_ratings_path_info.1, [])], [RunAction.calledSave], none⟩

/-- A concrete completed one-subject run used by the C10 witness. -/
def c10_example_result : RunOut :=
  ⟨⟨[false, false, false, false], [], [(['a'], [("Pass").data])], [(['a'], [])],
    [['a']], ['a'], true, []⟩,
   [(get_ratings_path_info.1, ("a,Pass,").data)],
   [RunAction.reviewedSubject ['a'], RunAction.calledSave], none⟩

theorem splitOnChar_ne_nil (c : Char) (s : Str) : splitOnChar c s ≠ [] := by
  cases s with
  | nil => simp [splitOnChar]
  | cons x xs =>
    simp only [splitOnChar]
    cases h : splitOnChar c xs with
    | nil => simp
    | cons y ys =>
      by_cases hx : x = c <;> simp [hx]

theorem splitOnChar_no_sep (c : Char) (s : Str) (h : c ∉ s) :
    splitOnChar c s = [s] := by
  induction s with
  | nil => simp [splitOnChar]
  | cons x xs ih =>
    simp only [List.mem_cons, not_or] at h
    simp only [splitOnChar, ih h.2]
    have hx : ¬ x = c := fun hc => h.1 hc.symm
    simp [hx]

theorem splitOnChar_append (c : Char) (s r : Str) (h : c ∉ s) :
    splitOnChar c (s ++ c :: r) = s :: splitOnChar c r := by
  induction s with
  | nil =>
    simp only [List.nil_append, splitOnChar]
    cases hr : splitOnChar c r with
    | nil => exact absurd hr (splitOnChar_ne_nil c r)
    | cons y ys => simp
  | cons x xs ih =>
    simp only [List.mem_cons, not_or] at h
    have hx : ¬ x = c := fun hc => h.1 hc.symm
    have hu : splitOnChar c ((x :: xs) ++ c :: r)
        = match splitOnChar c (xs ++ c :: r) with
          | [] => [[]]
          | y :: ys => if x = c then [] :: y :: ys else (x :: y) :: ys := rfl
    rw [hu, ih h.2]
    simp [hx]

theorem splitOnChar_joinChar (c : Char) (l : List Str)
    (hl : l ≠ []) (h : ∀ s ∈ l, c ∉ s) :
    splitOnChar c (joinChar c l) = l := by
  induction l with
  | nil => exact absurd rfl hl
  | cons s rest ih =>
    cases rest with
    | nil =>
      simp only [joinChar]
      exact splitOnChar_no_sep c s (h s (by simp))
    | cons t r =>
      simp only [joinChar]
      rw [splitOnChar_append c s _ (h s (by simp))]
      rw [ih (by simp) (fun x hx => h x (by simp [hx]))]

theorem mem_joinChar {c : Char} {x : Char} {l : List Str}
    (h : x ∈ joinChar c l) : x = c ∨ ∃ s ∈ l, x ∈ s := by
  induction l with
  | nil => simp [joinChar] at h
  | cons s rest ih =>
    cases rest with
    | nil =>
      simp only [joinChar] at h
      exact Or.inr ⟨s, by simp, h⟩
    | cons t r =>
      simp only [joinChar, List.mem_append, List.mem_cons] at h
      rcases h with hs | hc | hrest
      · exact Or.inr ⟨s, by simp, hs⟩
      · exact Or.inl hc
      · rcases ih hrest with hc | ⟨u, hu, hx⟩
        · exact Or.inl hc
        · exact Or.inr ⟨u, by simp [hu], hx⟩

theorem dictInsert_fresh (d : List (Str × β)) (k : Str) (v : β)
    (h : k ∉ dictKeys d) : dictInsert d k v = d ++ [(k, v)] := by
  induction d with
  | nil => simp [dictInsert]
  | cons p rest ih =>
    simp only [dictKeys, List.map_cons, List.mem_cons, not_or] at h
    have : ¬ p.1 = k := fun hc => h.1 hc.symm
    simp only [dictInsert, this, if_false, List.cons_append]
    rw [ih h.2]

theorem dictKeys_insert (d : List (Str × β)) (k : Str) (v : β) :
    dictKeys (dictInsert d k v) =
      if k ∈ dictKeys d then dictKeys d else dictKeys d ++ [k] := by
  induction d with
  | nil =>
    have h0 : dictKeys (dictInsert ([] : List (Str × β)) k v) = [k] := rfl
    have h1 : dictKeys ([] : List (Str × β)) = [] := rfl
    rw [h0, h1, if_neg (List.not_mem_nil k)]
    rfl
  | cons p rest ih =>
    by_cases hp : p.1 = k
    · simp only [dictInsert, hp, if_true]
      have hmem : k ∈ dictKeys (p :: rest) := by
        show k ∈ p.1 :: dictKeys rest
        rw [hp]
        exact List.mem_cons_self _ _
      rw [if_pos hmem]
      show k :: dictKeys rest = p.1 :: dictKeys rest
      rw [hp]
    · simp only [dictInsert, hp, if_false]
      have hmem : k ∈ dictKeys (p :: rest) ↔ k ∈ dictKeys rest := by
        simp only [dictKeys, List.map_cons, List.mem_cons]
        constructor
        · rintro (h | h)
          · exact absurd h.symm hp
          · exact h
        · exact fun h => Or.inr h
      have hstep : dictKeys (p :: dictInsert rest k v)
          = p.1 :: dictKeys (dictInsert rest k v) := rfl
      rw [hstep, ih]
      by_cases hk : k ∈ dictKeys rest
      · rw [if_pos hk, if_pos (hmem.mpr hk)]
        rfl
      · rw [if_neg hk, if_neg (fun h => hk (hmem.mp h))]
        rfl

theorem dictLookup_insert_self (d : List (Str × β)) (k : Str) (v : β) :
    dictLookup (dictInsert d k v) k = some v := by
  induction d with
  | nil => simp [dictInsert, dictLookup]
  | cons p rest ih =>
    by_cases hp : p.1 = k
    · simp [dictInsert, hp, dictLookup]
    · simp [dictInsert, hp, dictLookup, ih]

theorem dictLookup_insert_other (d : List (Str × β)) (k k' : Str) (v : β)
    (h : k ≠ k') : dictLookup (dictInsert d k v) k' = dictLookup d k' := by
  induction d with
  | nil => simp [dictInsert, dictLookup, h]
  | cons p rest ih =>
    by_cases hp : p.1 = k
    · simp only [dictInsert, hp, if_true, dictLookup]
      have : ¬ k = k' := h
      simp [this, hp]
    · simp only [dictInsert, hp, if_false, dictLookup]
      by_cases hp' : p.1 = k' <;> simp [hp', ih]

theorem dictKeys_erase_subset (d : List (Str × β)) (k : Str) :
    dictKeys (dictErase d k) ⊆ dictKeys d := by
  induction d with
  | nil => exact fun x hx => hx
  | cons p rest ih =>
    by_cases hp : p.1 = k
    · simp only [dictErase, hp, if_true, dictKeys, List.map_cons]
      exact fun x hx => List.mem_cons.mpr (Or.inr hx)
    · simp only [dictErase, hp, if_false, dictKeys, List.map_cons]
      intro x hx
      rcases List.mem_cons.mp hx with h | h
      · rw [h]
        exact List.mem_cons_self _ _
      · exact List.mem_cons.mpr (Or.inr (ih h))

theorem dictLookup_mem {d : List (Str × β)} {k : Str} {v : β}
    (h : dictLookup d k = some v) : (k, v) ∈ d := by
  induction d with
  | nil => simp [dictLookup] at h
  | cons p rest ih =>
    by_cases hp : p.1 = k
    · simp only [dictLookup, hp, if_true, Option.some.injEq] at h
      have hpv : p = (k, v) := by
        cases p
        simp only at hp h
        simp [hp, h]
      rw [← hpv]
      exact List.mem_cons_self _ _
    · simp only [dictLookup, hp, if_false] at h
      exact List.mem_cons.mpr (Or.inr (ih h))

theorem dictLookup_isSome_of_mem {d : List (Str × β)} {k : Str}
    (h : k ∈ dictKeys d) : (dictLookup d k).isSome := by
  induction d with
  | nil => exact absurd h (List.not_mem_nil k)
  | cons p rest ih =>
    by_cases hp : p.1 = k
    · simp [dictLookup, hp]
    · simp only [dictKeys, List.map_cons, List.mem_cons] at h
      rcases h with h | h
      · exact absurd h.symm hp
      · simp only [dictLookup, hp, if_false]
        exact ih h

theorem dictLookup_none_of_not_mem {d : List (Str × β)} {k : Str}
    (h : k ∉ dictKeys d) : dictLookup d k = none := by
  induction d with
  | nil => rfl
  | cons p rest ih =>
    simp only [dictKeys, List.map_cons, List.mem_cons, not_or] at h
    have : ¬ p.1 = k := fun hc => h.1 hc.symm
    simp only [dictLookup, this, if_false]
    exact ih h.2

theorem clear_from_getD (cfg : RatingCfg) (ep : Bool) (cb : List Bool) :
    ∀ i j, ¬ (ep = true ∧ i + j = index_pass cfg) →
      (clear_from cfg ep i cb).getD j false = false := by
  induction cb with
  | nil =>
    intro i j _
    simp [clear_from]
  | cons b rest ih =>
    intro i j hj
    cases j with
    | zero =>
      have hcond : ¬ (ep = true ∧ i = index_pass cfg) := by
        intro hc
        exact hj ⟨hc.1, by omega⟩
      simp [clear_from, hcond]
    | succ j' =>
      have step : (clear_from cfg ep i (b :: rest)).getD (j' + 1) false
          = (clear_from cfg ep (i + 1) rest).getD j' false := by
        simp [clear_from]
      rw [step]
      exact ih (i + 1) j' (fun hc => hj ⟨hc.1, by omega⟩)

theorem getD_set_self (l : List Bool) (i : Nat) (v : Bool) (hi : i < l.length) :
    (l.set i v).getD i false = v := by
  induction l generalizing i with
  | nil => simp at hi
  | cons b rest ih =>
    cases i with
    | zero => rfl
    | succ i' =>
      have : (b :: rest).set (i' + 1) v = b :: rest.set i' v := rfl
      rw [this]
      have hstep : (b :: rest.set i' v).getD (i' + 1) false
          = (rest.set i' v).getD i' false := rfl
      rw [hstep]
      exact ih i' (by simpa using hi)

theorem getD_false_of_le (l : List Bool) (i : Nat) (h : l.length ≤ i) :
    l.getD i false = false := by
  induction l generalizing i with
  | nil => simp
  | cons b rest ih =>
    cases i with
    | zero => simp at h
    | succ i' =>
      have hstep : (b :: rest).getD (i' + 1) false = rest.getD i' false := rfl
      rw [hstep]
      exact ih i' (by simpa using h)

theorem clear_pass_only_if_on_pass_off (cfg : RatingCfg) (cb : List Bool) :
    (clear_pass_only_if_on cfg cb).getD (index_pass cfg) false = false := by
  unfold clear_pass_only_if_on
  by_cases h : cb.getD (index_pass cfg) false = true
  · rw [if_pos h]
    by_cases hlt : index_pass cfg < cb.length
    · exact getD_set_self cb (index_pass cfg) false hlt
    · rw [List.set_eq_of_length_le (by omega)]
      exact getD_false_of_le cb (index_pass cfg) (by omega)
  · rw [if_neg h]
    exact Bool.not_eq_true _ ▸ (by revert h; cases cb.getD (index_pass cfg) false <;> simp)

/-- C4: For every current label selection and every label toggle event
(`CheckButtons.set_active` firing `save_issues`): selecting the reserved
pass label clears every other selected label, selecting any non-pass label
clears the pass label, and hence the pass label is never selected together
with any other label after a toggle is processed. -/
theorem C4_pass_label_mutual_exclusion (cfg : RatingCfg) (cb : List Bool) (i : Nat) :
    (cfg.issue_list.getD i [] = cfg.pass_indicator →
      ∀ j, j ≠ index_pass cfg → (set_active cfg cb i).getD j false = false)
    ∧ (cfg.issue_list.getD i [] ≠ cfg.pass_indicator →
        (set_active cfg cb i).getD (index_pass cfg) false = false)
    ∧ (∀ j, j ≠ index_pass cfg →
        ¬ ((set_active cfg cb i).getD (index_pass cfg) false = true
           ∧ (set_active cfg cb i).getD j false = true)) := by
  unfold set_active save_issues
  by_cases hl : cfg.issue_list.getD i [] = cfg.pass_indicator
  · rw [if_pos hl]
    have hclear : ∀ j, j ≠ index_pass cfg →
        (clear_checkboxes cfg (cb.set i (! cb.getD i false)) true).getD j false
          = false := by
      intro j hj
      exact clear_from_getD cfg true _ 0 j (fun hc => hj (by omega))
    refine ⟨fun _ j hj => hclear j hj, fun hcon => absurd hl hcon, ?_⟩
    intro j hj hand
    rw [hclear j hj] at hand
    exact Bool.false_ne_true hand.2
  · rw [if_neg hl]
    have hpass := clear_pass_only_if_on_pass_off cfg (cb.set i (! cb.getD i false))
    refine ⟨fun hcon => absurd hcon hl, fun _ => hpass, ?_⟩
    intro j hj hand
    rw [hpass] at hand
    exact Bool.false_ne_true hand.1

/-- Witness for C4: in the default vocabulary, toggling the pass label
(index 3) clears a previously selected "Motion" (index 0). -/
theorem C4_pass_label_mutual_exclusion_witness :
    default_rating_cfg.issue_list.getD 3 [] = default_rating_cfg.pass_indicator
    ∧ (set_active default_rating_cfg [true, false, false, false] 3).getD 0 false
        = false :=
  ⟨by decide,
   (C4_pass_label_mutual_exclusion default_rating_cfg
     [true, false, false, false] 3).1 (by decide) 0 (by decide)⟩

theorem clean_field_not_mem {s : Str} (h : clean_field s = true) :
    (',') ∉ s ∧ ('\n') ∉ s := by
  unfold clean_field at h
  rw [Bool.not_eq_true'] at h
  constructor
  · intro hmem
    have hany : s.any (fun c => c == ',' || c == '\n') = true :=
      List.any_eq_true.mpr ⟨',', hmem, by simp⟩
    rw [h] at hany
    exact Bool.false_ne_true hany
  · intro hmem
    have hany : s.any (fun c => c == ',' || c == '\n') = true :=
      List.any_eq_true.mpr ⟨'\n', hmem, by simp⟩
    rw [h] at hany
    exact Bool.false_ne_true hany

theorem clean_label_not_mem {s : Str} (h : clean_label s = true) :
    (',') ∉ s ∧ ('\n') ∉ s ∧ ('+') ∉ s := by
  unfold clean_label at h
  rw [Bool.and_eq_true] at h
  obtain ⟨hf, hplus⟩ := h
  refine ⟨(clean_field_not_mem hf).1, (clean_field_not_mem hf).2, ?_⟩
  rw [Bool.not_eq_true'] at hplus
  intro hmem
  have hany : s.any (fun c => c == '+') = true :=
    List.any_eq_true.mpr ⟨'+', hmem, by simp⟩
  rw [hplus] at hany
  exact Bool.false_ne_true hany

theorem not_mem_plus_join {rs : List Str} {x : Char}
    (_hlab : ∀ l ∈ rs, clean_label l = true) (hx : x ≠ '+')
    (hfield : ∀ l ∈ rs, x ∉ l) : x ∉ plus_join rs := by
  intro hmem
  rcases mem_joinChar hmem with hc | ⟨s, hs, hxs⟩
  · exact hx hc
  · exact hfield s hs hxs

theorem parse_format_row {sid : Str} {rs : List Str} {n : Str}
    (hw : wf_entry (sid, rs) = true) (hn : clean_field n = true) :
    parse_line (format_row sid rs n) = some (sid, rs, n) := by
  unfold wf_entry at hw
  rw [Bool.and_eq_true, Bool.and_eq_true] at hw
  obtain ⟨⟨hsid, hne⟩, hlab⟩ := hw
  have hlab' : ∀ l ∈ rs, clean_label l = true := List.all_eq_true.mp hlab
  have hrs_ne : rs ≠ [] := by
    intro hnil
    rw [hnil] at hne
    simp at hne
  have hcomma_sid : (',') ∉ sid := (clean_field_not_mem hsid).1
  have hcomma_pj : (',') ∉ plus_join rs :=
    not_mem_plus_join hlab' (by decide)
      (fun l hl => (clean_label_not_mem (hlab' l hl)).1)
  have hcomma_n : (',') ∉ n := (clean_field_not_mem hn).1
  have hplus_free : ∀ l ∈ rs, ('+') ∉ l :=
    fun l hl => (clean_label_not_mem (hlab' l hl)).2.2
  unfold parse_line format_row
  rw [splitOnChar_append (',') sid _ hcomma_sid,
      splitOnChar_append (',') (plus_join rs) _ hcomma_pj,
      splitOnChar_no_sep (',') n hcomma_n]
  show some (sid, splitOnChar '+' (plus_join rs), n) = some (sid, rs, n)
  unfold plus_join
  rw [splitOnChar_joinChar ('+') rs hrs_ne hplus_free]

theorem newline_not_mem_format_row {sid : Str} {rs : List Str} {n : Str}
    (hw : wf_entry (sid, rs) = true) (hn : clean_field n = true) :
    ('\n') ∉ format_row sid rs n := by
  unfold wf_entry at hw
  rw [Bool.and_eq_true, Bool.and_eq_true] at hw
  obtain ⟨⟨hsid, _⟩, hlab⟩ := hw
  have hlab' : ∀ l ∈ rs, clean_label l = true := List.all_eq_true.mp hlab
  intro hmem
  unfold format_row at hmem
  rw [List.mem_append] at hmem
  rcases hmem with h | h
  · exact (clean_field_not_mem hsid).2 h
  · rw [List.mem_cons] at h
    rcases h with h | h
    · exact absurd h (by decide)
    · rw [List.mem_append] at h
      rcases h with h | h
      · exact not_mem_plus_join hlab' (by decide)
          (fun l hl => (clean_label_not_mem (hlab' l hl)).2.1) h
      · rw [List.mem_cons] at h
        rcases h with h | h
        · exact absurd h (by decide)
        · exact (clean_field_not_mem hn).2 h

theorem save_rows_eq_map {ratings : List (Str × List Str)}
    {notes : List (Str × Str)} {rows : List Str}
    (h : save_rows ratings notes = some rows) :
    rows = ratings.map
      (fun p => format_row p.1 p.2 ((dictLookup notes p.1).getD [])) := by
  induction ratings generalizing rows with
  | nil =>
    simp only [save_rows, Option.some.injEq] at h
    rw [← h]
    rfl
  | cons p rest ih =>
    simp only [save_rows] at h
    cases hn : dictLookup notes p.1 with
    | none => rw [hn] at h; exact absurd h (by simp)
    | some n =>
      rw [hn] at h
      cases hr : save_rows rest notes with
      | none => rw [hr] at h; exact absurd h (by simp)
      | some rs =>
        rw [hr] at h
        simp only [Option.some.injEq] at h
        rw [← h, List.map_cons, ih hr, hn]
        rfl

theorem save_rows_isSome {ratings : List (Str × List Str)}
    {notes : List (Str × Str)}
    (h : ∀ p ∈ ratings, clean_notes_at notes p.1 = true) :
    (save_rows ratings notes).isSome := by
  induction ratings with
  | nil => rfl
  | cons p rest ih =>
    have hp := h p (List.mem_cons_self _ _)
    unfold clean_notes_at at hp
    cases hn : dictLookup notes p.1 with
    | none => rw [hn] at hp; exact absurd hp (by simp)
    | some n =>
      have htail := ih (fun q hq => h q (List.mem_cons.mpr (Or.inr hq)))
      cases hr : save_rows rest notes with
      | none => rw [hr] at htail; exact absurd htail (by simp)
      | some rs => simp [save_rows, hn, hr]

theorem foldl_dictInsert_fresh (l : List (Str × β)) :
    ∀ acc : List (Str × β),
      (∀ k ∈ l.map Prod.fst, k ∉ dictKeys acc) → (l.map Prod.fst).Nodup →
      l.foldl (fun d p => dictInsert d p.1 p.2) acc = acc ++ l := by
  induction l with
  | nil => intro acc _ _; simp
  | cons p rest ih =>
    intro acc hfresh hnodup
    rw [List.foldl_cons,
        dictInsert_fresh acc p.1 p.2
          (hfresh p.1 (by rw [List.map_cons]; exact List.mem_cons_self _ _))]
    rw [List.map_cons, List.nodup_cons] at hnodup
    have hfresh' : ∀ k ∈ rest.map Prod.fst, k ∉ dictKeys (acc ++ [(p.1, p.2)]) := by
      intro k hk
      have h1 : k ∉ dictKeys acc :=
        hfresh k (by rw [List.map_cons]; exact List.mem_cons.mpr (Or.inr hk))
      have h2 : k ≠ p.1 := fun hc => hnodup.1 (hc ▸ hk)
      intro hmem
      unfold dictKeys at hmem h1
      rw [List.map_append, List.mem_append] at hmem
      rcases hmem with h | h
      · exact h1 h
      · have hk1 : k ∈ [p.1] := h
        exact h2 (List.mem_singleton.mp hk1)
    have := ih (acc ++ [(p.1, p.2)]) hfresh' hnodup.2
    rw [this]
    simp

theorem dictLookup_map_keyed (l : List (Str × α)) (f : Str → β) (k : Str) :
    dictLookup (l.map (fun p => (p.1, f p.1))) k
      = if k ∈ dictKeys l then some (f k) else none := by
  induction l with
  | nil =>
    have h1 : dictKeys ([] : List (Str × α)) = [] := rfl
    rw [h1, if_neg (List.not_mem_nil k)]
    rfl
  | cons p rest ih =>
    by_cases hp : p.1 = k
    · have hmem : k ∈ dictKeys (p :: rest) := by
        show k ∈ p.1 :: dictKeys rest
        rw [hp]
        exact List.mem_cons_self _ _
      rw [if_pos hmem]
      show (if p.1 = k then some (f p.1) else _) = some (f k)
      rw [if_pos hp, hp]
    · have hmem : k ∈ dictKeys (p :: rest) ↔ k ∈ dictKeys rest := by
        simp only [dictKeys, List.map_cons, List.mem_cons]
        constructor
        · rintro (h | h)
          · exact absurd h.symm hp
          · exact h
        · exact fun h => Or.inr h
      have hstep : dictLookup ((p :: rest).map (fun q => (q.1, f q.1))) k
          = dictLookup (rest.map (fun q => (q.1, f q.1))) k := by
        show (if p.1 = k then some (f p.1) else _) = _
        rw [if_neg hp]
      rw [hstep, ih]
      by_cases hk : k ∈ dictKeys rest
      · rw [if_pos hk, if_pos (hmem.mpr hk)]
      · rw [if_neg hk, if_neg (fun h => hk (hmem.mp h))]

theorem filterMap_all_some {l : List α} {f : α → Option γ} {g : α → γ}
    (h : ∀ a ∈ l, f a = some (g a)) : l.filterMap f = l.map g := by
  induction l with
  | nil => rfl
  | cons a rest ih =>
    rw [List.filterMap_cons_some (h a (List.mem_cons_self _ _)), List.map_cons,
        ih (fun b hb => h b (List.mem_cons.mpr (Or.inr hb)))]

theorem parse_ratings_file_of_save {ratings : List (Str × List Str)}
    {notes : List (Str × Str)} {content : Str}
    (hwf : WFSession ratings notes)
    (hsl : save_lines ratings notes = some content) :
    parse_ratings_file content
      = (ratings, ratings.map (fun p => (p.1, (dictLookup notes p.1).getD []))) := by
  obtain ⟨hentries, hnodup, hnotes⟩ := hwf
  unfold save_lines at hsl
  cases hr : save_rows ratings notes with
  | none => rw [hr] at hsl; exact absurd hsl (by simp)
  | some rows =>
    rw [hr] at hsl
    simp only [Option.map_some', Option.some.injEq] at hsl
    have hrows := save_rows_eq_map hr
    have hclean_note : ∀ p ∈ ratings,
        clean_field ((dictLookup notes p.1).getD []) = true := by
      intro p hp
      have := hnotes p hp
      unfold clean_notes_at at this
      cases hl : dictLookup notes p.1 with
      | none => rw [hl] at this; exact absurd this (by simp)
      | some n => rw [hl] at this; exact this
    cases hrat : ratings with
    | nil =>
      rw [hrat] at hrows
      rw [hrows] at hsl
      rw [← hsl]
      rfl
    | cons q qs =>
      rw [← hrat]
      have hrows_ne : rows ≠ [] := by
        rw [hrows, hrat]
        simp
      have hrows_clean : ∀ row ∈ rows, ('\n') ∉ row := by
        intro row hrow
        rw [hrows] at hrow
        rcases List.mem_map.mp hrow with ⟨p, hp, hpr⟩
        rw [← hpr]
        have hwp : wf_entry p = true := hentries p hp
        have hwp' : wf_entry (p.1, p.2) = true := hwp
        exact newline_not_mem_format_row hwp' (hclean_note p hp)
      have hsplit : splitOnChar '\n' content = rows := by
        rw [← hsl]
        exact splitOnChar_joinChar ('\n') rows hrows_ne hrows_clean
      have htriples : (splitOnChar '\n' content).filterMap parse_line
          = ratings.map (fun p => (p.1, p.2, (dictLookup notes p.1).getD [])) := by
        rw [hsplit, hrows]
        rw [List.filterMap_map]
        apply filterMap_all_some
        intro p hp
        have hwp' : wf_entry (p.1, p.2) = true := hentries p hp
        exact parse_format_row hwp' (hclean_note p hp)
      have hc1 : (ratings.map
            (fun p => (p.1, p.2, (dictLookup notes p.1).getD []))).foldl
          (fun d r => dictInsert d r.1 r.2.1) [] = ratings := by
        rw [List.foldl_map]
        exact (foldl_dictInsert_fresh ratings []
          (fun k _ => List.not_mem_nil k) hnodup).trans (List.nil_append ratings)
      have hc2 : (ratings.map
            (fun p => (p.1, p.2, (dictLookup notes p.1).getD []))).foldl
          (fun d r => dictInsert d r.1 r.2.2) []
          = ratings.map (fun p => (p.1, (dictLookup notes p.1).getD [])) := by
        have hkeys : (ratings.map
              (fun p => (p.1, (dictLookup notes p.1).getD []))).map Prod.fst
            = ratings.map Prod.fst := by
          rw [List.map_map]
          rfl
        have hM : (ratings.map
              (fun p => (p.1, (dictLookup notes p.1).getD []))).foldl
            (fun d q => dictInsert d q.1 q.2) []
            = ratings.map (fun p => (p.1, (dictLookup notes p.1).getD [])) := by
          refine (foldl_dictInsert_fresh _ []
            (fun k _ => List.not_mem_nil k) ?_).trans (List.nil_append _)
          rw [hkeys]
          exact hnodup
        rw [List.foldl_map] at hM
        rw [List.foldl_map]
        exact hM
      unfold parse_ratings_file
      rw [htriples, hc1, hc2]

theorem dictLookup_isSome_of_wf {ratings : List (Str × List Str)}
    {notes : List (Str × Str)} {sid : Str}
    (hnotes : ∀ p ∈ ratings, clean_notes_at notes p.1 = true)
    (hsid : sid ∈ dictKeys ratings) : (dictLookup notes sid).isSome := by
  rcases List.mem_map.mp hsid with ⟨p, hp, hps⟩
  have := hnotes p hp
  unfold clean_notes_at at this
  rw [hps] at this
  cases hl : dictLookup notes sid with
  | none => rw [hl] at this; exact absurd this (by simp)
  | some n => rfl

/-- C3 (amended): Saving and then restoring the session file reproduces
the ratings mapping exactly and the notes of every rated subject, provided
the session is well formed for serialization: every rating set is
non-empty, and subject ids, labels, and notes avoid the field delimiter,
the newline row separator, and (for labels) the plus delimiter.  (The
claim's "for ... all notes strings" fails: see the counterexample.) -/
theorem C3_save_restore_round_trip (ratings : List (Str × List Str))
    (notes : List (Str × Str)) (content : Str)
    (hwf : WFSession ratings notes)
    (hsl : save_lines ratings notes = some content) :
    (parse_ratings_file content).1 = ratings
    ∧ ∀ sid ∈ dictKeys ratings,
        dictLookup (parse_ratings_file content).2 sid = dictLookup notes sid := by
  have h := parse_ratings_file_of_save hwf hsl
  constructor
  · rw [h]
  · intro sid hsid
    rw [h]
    have h2 : (ratings,
        ratings.map (fun p => (p.1, (dictLookup notes p.1).getD []))).2
        = ratings.map (fun p => (p.1, (dictLookup notes p.1).getD [])) := rfl
    rw [h2, dictLookup_map_keyed ratings
          (fun k => (dictLookup notes k).getD []) sid, if_pos hsid]
    have hsome := dictLookup_isSome_of_wf hwf.2.2 hsid
    cases hl : dictLookup notes sid with
    | none => rw [hl] at hsome; exact absurd hsome (by simp)
    | some n => rfl

/-- Witness for C3: a one-subject session with rating `{Pass}` and clean
notes `ok` round-trips exactly. -/
theorem C3_save_restore_round_trip_witness :
    (WFSession [(("s1").data, [("Pass").data])] [(("s1").data, ("ok").data)]
      ∧ save_lines [(("s1").data, [("Pass").data])] [(("s1").data, ("ok").data)]
          = some (("s1,Pass,ok").data))
    ∧ (parse_ratings_file (("s1,Pass,ok").data)).1
        = [(("s1").data, [("Pass").data])] :=
  ⟨⟨by decide, by decide⟩,
   (C3_save_restore_round_trip [(("s1").data, [("Pass").data])]
     [(("s1").data, ("ok").data)] (("s1,Pass,ok").data)
     (by decide) (by decide)).1⟩

/-- C3 counterexample: With the notes string `a,b` (legal free text per
the claim, which quantifies over *all* notes strings), `save_ratings`
writes the row `s1,Pass,a,b`; restoring splits it into four fields, the
line fails to parse, and the restored ratings mapping is empty rather than
the saved one — the round trip is broken. -/
theorem C3_round_trip_counterexample :
    save_lines [(("s1").data, [("Pass").data])] [(("s1").data, ("a,b").data)]
      = some (("s1,Pass,a,b").data)
    ∧ (parse_ratings_file (("s1,Pass,a,b").data)).1 = []
    ∧ (parse_ratings_file (("s1,Pass,a,b").data)).1
        ≠ [(("s1").data, [("Pass").data])] := by
  refine ⟨by decide, by decide, by decide⟩

/-- C2: In every call to `save_ratings` with a pre-existing session
file: the prior contents are first copied to the backup path — in every
outcome (successful write, failed write, or `KeyError` while building the
rows) the backup holds the prior contents; a successful write overwrites
the session file with the new serialization while the backup keeps the
prior copy; and a failed write raises an `IOError` whose message reports
the backup location, with both the backup and the prior session file left
intact. -/
theorem C2_save_backup_before_overwrite (write_ok : Bool)
    (ratings : List (Str × List Str)) (notes : List (Str × Str))
    (fs : FileStore) (prior : Str)
    (hprior : dictLookup fs get_ratings_path_info.1 = some prior) :
    (dictLookup (save_ratings write_ok ratings notes fs).fs
        get_ratings_path_info.2 = some prior)
    ∧ (∀ lines, save_lines ratings notes = some lines → write_ok = true →
        dictLookup (save_ratings write_ok ratings notes fs).fs
          get_ratings_path_info.1 = some lines)
    ∧ (∀ lines, save_lines ratings notes = some lines → write_ok = false →
        (save_ratings write_ok ratings notes fs).err
            = some (save_error_msg get_ratings_path_info.2)
        ∧ (∃ a b, save_error_msg get_ratings_path_info.2
              = a ++ get_ratings_path_info.2 ++ b)
        ∧ dictLookup (save_ratings write_ok ratings notes fs).fs
            get_ratings_path_info.1 = some prior) := by
  have hne : get_ratings_path_info.1 ≠ get_ratings_path_info.2 := by decide
  simp only [save_ratings]
  rw [hprior]
  refine ⟨?_, ?_, ?_⟩
  · cases hsl : save_lines ratings notes with
    | none =>
      exact dictLookup_insert_self fs get_ratings_path_info.2 prior
    | some lines =>
      cases write_ok with
      | false =>
        show dictLookup (dictInsert fs get_ratings_path_info.2 prior)
            get_ratings_path_info.2 = some prior
        exact dictLookup_insert_self fs get_ratings_path_info.2 prior
      | true =>
        show dictLookup (dictInsert
            (dictInsert fs get_ratings_path_info.2 prior)
            get_ratings_path_info.1 lines) get_ratings_path_info.2 = some prior
        rw [dictLookup_insert_other _ _ _ _ hne]
        exact dictLookup_insert_self fs get_ratings_path_info.2 prior
  · intro lines hsl hwt
    rw [hsl, hwt]
    show dictLookup (dictInsert
        (dictInsert fs get_ratings_path_info.2 prior)
        get_ratings_path_info.1 lines) get_ratings_path_info.1 = some lines
    exact dictLookup_insert_self _ get_ratings_path_info.1 lines
  · intro lines hsl hwf
    rw [hsl, hwf]
    refine ⟨rfl, ⟨("Error in saving ratings to file!! Backup might be helpful at: ").data,
        [], by simp [save_error_msg]⟩, ?_⟩
    show dictLookup (dictInsert fs get_ratings_path_info.2 prior)
        get_ratings_path_info.1 = some prior
    rw [dictLookup_insert_other _ _ _ _ (fun hc => hne hc.symm)]
    exact hprior

/-- Witness for C2: with a prior session file on disk and a failing write,
the raised error names the backup path and the prior file survives. -/
theorem C2_save_backup_before_overwrite_witness :
    dictLookup [(get_ratings_path_info.1, ("old").data)]
        get_ratings_path_info.1 = some (("old").data)
    ∧ dictLookup (save_ratings false [(("s1").data, [("Pass").data])]
          [(("s1").data, ("ok").data)]
          [(get_ratings_path_info.1, ("old").data)]).fs
        get_ratings_path_info.2 = some (("old").data) :=
  ⟨by decide,
   (C2_save_backup_before_overwrite false [(("s1").data, [("Pass").data])]
     [(("s1").data, ("ok").data)] [(get_ratings_path_info.1, ("old").data)]
     (("old").data) (by decide)).1⟩

theorem takeWhile_until_comma (sid rest : Str) (h : (',') ∉ sid) :
    (sid ++ ',' :: rest).takeWhile (fun c => ! (c == ',')) = sid := by
  induction sid with
  | nil => rfl
  | cons x xs ih =>
    simp only [List.mem_cons, not_or] at h
    have hx : (x == ',') = false := by
      rw [beq_eq_false_iff_ne]
      exact fun hc => h.1 (hc ▸ rfl)
    rw [List.cons_append, List.takeWhile_cons]
    show (if (! (x == ',')) = true then
        x :: (xs ++ ',' :: rest).takeWhile (fun c => ! (c == ',')) else []) = x :: xs
    rw [hx, ih h.2]
    simp

theorem id_field_format_row {sid : Str} (rs : List Str) (n : Str)
    (h : (',') ∉ sid) : id_field (format_row sid rs n) = sid := by
  unfold id_field format_row
  exact takeWhile_until_comma sid _ h

/-- C8: `save_ratings` serializes exactly one row per rated subject,
of the form `subject_id,label1+label2+...,notes_text` (comma field
delimiter, plus multi-label delimiter), in the iteration order of the
ratings mapping, joined by newlines into the file contents; and with the
dict's unique (clean) subject ids, no two rows carry the same id field. -/
theorem C8_save_one_row_per_subject (ratings : List (Str × List Str))
    (notes : List (Str × Str)) (rows : List Str)
    (h : save_rows ratings notes = some rows) :
    rows = ratings.map
        (fun p => format_row p.1 p.2 ((dictLookup notes p.1).getD []))
    ∧ rows.length = ratings.length
    ∧ save_lines ratings notes = some (joinChar '\n' rows)
    ∧ ((∀ p ∈ ratings, clean_field p.1 = true) → (dictKeys ratings).Nodup →
        (rows.map id_field).Nodup) := by
  have hrows := save_rows_eq_map h
  refine ⟨hrows, by rw [hrows, List.length_map], ?_, ?_⟩
  · unfold save_lines
    rw [h]
    rfl
  · intro hclean hnodup
    have hmap : rows.map id_field = ratings.map Prod.fst := by
      rw [hrows, List.map_map]
      apply List.map_congr_left
      intro p hp
      show id_field (format_row p.1 p.2 ((dictLookup notes p.1).getD [])) = p.1
      exact id_field_format_row _ _ (clean_field_not_mem (hclean p hp)).1
    rw [hmap]
    exact hnodup

/-- Witness for C8: a two-subject session serializes to the two expected
rows with distinct id fields. -/
theorem C8_save_one_row_per_subject_witness :
    save_rows [(("s1").data, [("Pass").data]),
               (("s2").data, [("Motion").data, ("Ringing").data])]
        [(("s1").data, ("ok").data), (("s2").data, ("bad").data)]
      = some [("s1,Pass,ok").data, ("s2,Motion+Ringing,bad").data]
    ∧ [("s1,Pass,ok").data, ("s2,Motion+Ringing,bad").data].length
        = [(("s1").data, [("Pass").data]),
           (("s2").data, [("Motion").data, ("Ringing").data])].length :=
  ⟨by decide,
   (C8_save_one_row_per_subject
     [(("s1").data, [("Pass").data]),
      (("s2").data, [("Motion").data, ("Ringing").data])]
     [(("s1").data, ("ok").data), (("s2").data, ("bad").data)]
     [("s1,Pass,ok").data, ("s2,Motion+Ringing,bad").data]
     (by decide)).2.1⟩

/-- C1: In `Reviewing(subject)`, the advance (`next`) and quit events
are both gated by `allowed_to_advance`, true iff at least one label is
selected (the pass label, being part of the vocabulary checkbox list,
counts).  With no label selected both events are rejected: the rater is
told to finish rating and the whole state — in particular the ratings
mapping, the notes mapping and `incomplete_list` — is unchanged.  With a
label selected both events are accepted and capture the current rating. -/
theorem C1_advance_quit_gating (cfg : RatingCfg) (st : WorkflowState) :
    (allowed_to_advance st.checkbox = false →
      next cfg st = {st with printed := st.printed ++ [Output.pleaseFinishRating]}
      ∧ quit cfg st = {st with printed := st.printed ++ [Output.pleaseFinishRating]}
      ∧ (next cfg st).ratings = st.ratings
      ∧ (next cfg st).notes = st.notes
      ∧ (next cfg st).incomplete_list = st.incomplete_list
      ∧ (quit cfg st).ratings = st.ratings
      ∧ (quit cfg st).notes = st.notes
      ∧ (quit cfg st).incomplete_list = st.incomplete_list)
    ∧ (allowed_to_advance st.checkbox = true →
      (next cfg st).ratings
        = dictInsert st.ratings st.current_subject_id (get_ratings cfg st.checkbox)
      ∧ (next cfg st).quit_now = false
      ∧ (quit cfg st).ratings
        = dictInsert st.ratings st.current_subject_id (get_ratings cfg st.checkbox)
      ∧ (quit cfg st).quit_now = true)
    ∧ (allowed_to_advance st.checkbox = true ↔ ∃ b ∈ st.checkbox, b = true) := by
  refine ⟨?_, ?_, ?_⟩
  · intro h
    have hneg : ¬ allowed_to_advance st.checkbox = true :=
      fun hc => Bool.false_ne_true (h ▸ hc)
    unfold next quit
    rw [if_neg hneg, if_neg hneg]
    exact ⟨rfl, rfl, rfl, rfl, rfl, rfl, rfl, rfl⟩
  · intro h
    unfold next quit
    rw [if_pos h, if_pos h]
    exact ⟨rfl, rfl, rfl, rfl⟩
  · unfold allowed_to_advance
    rw [List.any_eq_true]
    constructor
    · rintro ⟨b, hb, hbt⟩
      exact ⟨b, hb, hbt⟩
    · rintro ⟨b, hb, hbt⟩
      exact ⟨b, hb, hbt⟩

/-- Witness for C1: with nothing checked, `next` only prints the warning
and leaves the ratings mapping unchanged. -/
theorem C1_advance_quit_gating_witness :
    allowed_to_advance
      (WorkflowState.mk [false, false, false, false] [] [] []
        [("s1").data] (("s1").data) false []).checkbox = false
    ∧ (next default_rating_cfg
        (WorkflowState.mk [false, false, false, false] [] [] []
          [("s1").data] (("s1").data) false [])).ratings
      = (WorkflowState.mk [false, false, false, false] [] [] []
          [("s1").data] (("s1").data) false []).ratings :=
  ⟨by decide,
   ((C1_advance_quit_gating default_rating_cfg
     (WorkflowState.mk [false, false, false, false] [] [] []
       [("s1").data] (("s1").data) false [])).1 (by decide)).2.2.1⟩

/-- C9 counterexample: With one view, 5 slices per view and 2 rows
per view, 2 does not evenly divide 5 — yet `init_layout` raises no
`LayoutError` (it has no error path at all): it silently truncates,
returning a 2 x 2 grid for the 5 requested slices. -/
theorem C9_layout_counterexample :
    init_layout [0] 2 5 = ⟨[0], 5, 2, 2, 2⟩
    ∧ (init_layout [0] 2 5).num_rows * (init_layout [0] 2 5).num_cols
        ≠ 1 * 5 := by
  refine ⟨by decide, by decide⟩

/-- C9 (amended): `init_layout` performs no divisibility validation
and never fails: it always returns a layout, with
`num_rows = len(views) * num_rows_per_view` and `num_cols` the truncating
division of the total slice count by `num_rows`; and the rows-per-view
setting never affects which slices are chosen for display. -/
theorem C9_layout_truncating_division (views : List Nat)
    (num_rows_per_view num_slices_per_view : Nat)
    (pick : Volume → List Nat → Nat → List (Nat × Nat)) (img : Volume)
    (r1 r2 : Nat) :
    (init_layout views num_rows_per_view num_slices_per_view).num_rows
        = views.length * num_rows_per_view
    ∧ (init_layout views num_rows_per_view num_slices_per_view).num_cols
        = (views.length * num_slices_per_view)
            / (views.length * num_rows_per_view)
    ∧ chosen_slices pick (init_layout views r1 num_slices_per_view) img
        = chosen_slices pick (init_layout views r2 num_slices_per_view) img :=
  ⟨rfl, rfl, rfl⟩

theorem mem_dictInsert {d : List (Str × β)} {k : Str} {v : β} {p : Str × β}
    (h : p ∈ dictInsert d k v) : p = (k, v) ∨ p ∈ d := by
  induction d with
  | nil =>
    rcases List.mem_singleton.mp h with h1
    exact Or.inl h1
  | cons q rest ih =>
    by_cases hq : q.1 = k
    · simp only [dictInsert, hq, if_true] at h
      rcases List.mem_cons.mp h with h1 | h1
      · exact Or.inl h1
      · exact Or.inr (List.mem_cons.mpr (Or.inr h1))
    · simp only [dictInsert, hq, if_false] at h
      rcases List.mem_cons.mp h with h1 | h1
      · exact Or.inr (List.mem_cons.mpr (Or.inl h1))
      · rcases ih h1 with h2 | h2
        · exact Or.inl h2
        · exact Or.inr (List.mem_cons.mpr (Or.inr h2))

theorem mem_dictErase {d : List (Str × β)} {k : Str} {p : Str × β}
    (h : p ∈ dictErase d k) : p ∈ d := by
  induction d with
  | nil => exact h
  | cons q rest ih =>
    by_cases hq : q.1 = k
    · simp only [dictErase, hq, if_true] at h
      exact List.mem_cons.mpr (Or.inr h)
    · simp only [dictErase, hq, if_false] at h
      rcases List.mem_cons.mp h with h1 | h1
      · exact List.mem_cons.mpr (Or.inl h1)
      · exact List.mem_cons.mpr (Or.inr (ih h1))

theorem mem_dictKeys_insert {d : List (Str × β)} {k k' : Str} {v : β} :
    k' ∈ dictKeys (dictInsert d k v) ↔ k' ∈ dictKeys d ∨ k' = k := by
  rw [dictKeys_insert]
  by_cases h : k ∈ dictKeys d
  · rw [if_pos h]
    constructor
    · exact fun h1 => Or.inl h1
    · rintro (h1 | h1)
      · exact h1
      · exact h1 ▸ h
  · rw [if_neg h]
    rw [List.mem_append, List.mem_singleton]

theorem clear_from_length (cfg : RatingCfg) (ep : Bool) (cb : List Bool) :
    ∀ i, (clear_from cfg ep i cb).length = cb.length := by
  induction cb with
  | nil => intro i; rfl
  | cons b rest ih =>
    intro i
    show (clear_from cfg ep (i + 1) rest).length + 1 = rest.length + 1
    rw [ih (i + 1)]

theorem set_active_length (cfg : RatingCfg) (cb : List Bool) (i : Nat) :
    (set_active cfg cb i).length = cb.length := by
  unfold set_active save_issues
  by_cases hl : cfg.issue_list.getD i [] = cfg.pass_indicator
  · rw [if_pos hl]
    unfold clear_checkboxes
    rw [clear_from_length, List.length_set]
  · rw [if_neg hl]
    unfold clear_pass_only_if_on
    by_cases hp : (cb.set i (! cb.getD i false)).getD (index_pass cfg) false = true
    · rw [if_pos hp, List.length_set, List.length_set]
    · rw [if_neg hp, List.length_set]

theorem get_ratings_ne_nil (cfg : RatingCfg) (cb : List Bool)
    (hlen : cb.length = cfg.issue_list.length)
    (ha : cb.any id = true) : get_ratings cfg cb ≠ [] := by
  unfold get_ratings
  suffices hsuf : ∀ (l1 : List Str) (l2 : List Bool), l2.length = l1.length →
      l2.any id = true → ((l1.zip l2).filter (fun p => p.2)).map Prod.fst ≠ [] by
    exact hsuf cfg.issue_list cb hlen ha
  intro l1 l2
  induction l2 generalizing l1 with
  | nil =>
    intro _ ha2
    simp at ha2
  | cons b rest ih =>
    intro hlen2 ha2
    cases l1 with
    | nil => simp at hlen2
    | cons x xs =>
      cases b with
      | true =>
        simp only [List.zip_cons_cons, List.filter_cons]
        simp
      | false =>
        have ha3 : rest.any id = true := by
          simpa using ha2
        have hxs : rest.length = xs.length := by
          simpa using hlen2
        simp only [List.zip_cons_cons, List.filter_cons]
        have := ih xs hxs ha3
        simpa using this

theorem run_events_preserve (cfg : RatingCfg) (P : WorkflowState → Prop)
    (hT : ∀ st i, P st → P (ws_toggle cfg st i))
    (hN : ∀ st s, P st → P (ws_set_notes st s))
    (hnext : ∀ st, P st → P (next cfg st))
    (hquit : ∀ st, P st → P (quit cfg st)) :
    ∀ (evs : List Event) (st st' : WorkflowState),
      run_events cfg evs st = some st' → P st → P st' := by
  intro evs
  induction evs with
  | nil =>
    intro st st' h _
    exact Option.noConfusion h
  | cons e rest ih =>
    intro st st' h hP
    cases e with
    | toggle i =>
      exact ih _ _ h (hT st i hP)
    | setNotes s =>
      exact ih _ _ h (hN st s hP)
    | pressNext =>
      by_cases ha : allowed_to_advance st.checkbox = true
      · have h2 : some (next cfg st) = some st' := by
          simpa [run_events, ha] using h
        have h3 : next cfg st = st' := by injection h2
        exact h3 ▸ hnext st hP
      · have h2 : run_events cfg rest (next cfg st) = some st' := by
          simpa [run_events, ha] using h
        exact ih _ _ h2 (hnext st hP)
    | pressQuit =>
      by_cases ha : allowed_to_advance st.checkbox = true
      · have h2 : some (quit cfg st) = some st' := by
          simpa [run_events, ha] using h
        have h3 : quit cfg st = st' := by injection h2
        exact h3 ▸ hquit st hP
      · have h2 : run_events cfg rest (quit cfg st) = some st' := by
          simpa [run_events, ha] using h
        exact ih _ _ h2 (hquit st hP)

theorem loop_nil (cfg : RatingCfg) (loader : Str → Except Str Volume)
    (script : Str → List Event) (st : WorkflowState) (tr : List RunAction) :
    loop_through_subjects cfg loader script [] st tr = .ok st tr := rfl

theorem loop_load_error (cfg : RatingCfg) (loader : Str → Except Str Volume)
    (script : Str → List Event) (sid : Str) (rest : List Str)
    (st : WorkflowState) (tr : List RunAction) (msg : Str)
    (h : loader sid = .error msg) :
    loop_through_subjects cfg loader script (sid :: rest) st tr
      = .err (.loadFail msg) := by
  simp only [loop_through_subjects, load_data, h]

theorem loop_skip (cfg : RatingCfg) (loader : Str → Except Str Volume)
    (script : Str → List Event) (sid : Str) (rest : List Str)
    (st : WorkflowState) (tr : List RunAction) (v : Volume)
    (h : loader sid = .ok v) (hz : count_nonzero v = 0) :
    loop_through_subjects cfg loader script (sid :: rest) st tr
      = loop_through_subjects cfg loader script rest
          {st with current_subject_id := sid}
          (tr ++ [.skippedSubject sid]) := by
  simp only [loop_through_subjects, load_data, h, hz]
  simp

theorem loop_blocked (cfg : RatingCfg) (loader : Str → Except Str Volume)
    (script : Str → List Event) (sid : Str) (rest : List Str)
    (st : WorkflowState) (tr : List RunAction) (v : Volume)
    (h : loader sid = .ok v) (hz : ¬ count_nonzero v = 0)
    (hre : run_events cfg (script sid)
        {st with current_subject_id := sid} = none) :
    loop_through_subjects cfg loader script (sid :: rest) st tr
      = .err .uiBlocked := by
  have hzf : (count_nonzero v == 0) = false := by
    rw [beq_eq_false_iff_ne]
    exact hz
  simp only [loop_through_subjects, load_data, h, hzf, hre]
  simp

theorem loop_display_keep (cfg : RatingCfg) (loader : Str → Except Str Volume)
    (script : Str → List Event) (sid : Str) (rest : List Str)
    (st : WorkflowState) (tr : List RunAction) (v : Volume)
    (st1 : WorkflowState)
    (h : loader sid = .ok v) (hz : ¬ count_nonzero v = 0)
    (hre : run_events cfg (script sid)
        {st with current_subject_id := sid} = some st1)
    (hpop : ((dictLookup st1.ratings sid).getD []) ∉ ratings_not_to_be_recorded) :
    loop_through_subjects cfg loader script (sid :: rest) st tr
      = if st1.quit_now then .ok st1 (tr ++ [.reviewedSubject sid])
        else loop_through_subjects cfg loader script rest st1
          (tr ++ [.reviewedSubject sid]) := by
  have hzf : (count_nonzero v == 0) = false := by
    rw [beq_eq_false_iff_ne]
    exact hz
  simp only [loop_through_subjects, load_data, h, hzf, hre]
  simp [hpop]

theorem loop_display_pop (cfg : RatingCfg) (loader : Str → Except Str Volume)
    (script : Str → List Event) (sid : Str) (rest : List Str)
    (st : WorkflowState) (tr : List RunAction) (v : Volume)
    (st1 : WorkflowState)
    (h : loader sid = .ok v) (hz : ¬ count_nonzero v = 0)
    (hre : run_events cfg (script sid)
        {st with current_subject_id := sid} = some st1)
    (hpop : ((dictLookup st1.ratings sid).getD []) ∈ ratings_not_to_be_recorded) :
    loop_through_subjects cfg loader script (sid :: rest) st tr
      = if st1.quit_now then
          .ok {st1 with ratings := dictErase st1.ratings sid}
            (tr ++ [.reviewedSubject sid])
        else loop_through_subjects cfg loader script rest
          {st1 with ratings := dictErase st1.ratings sid}
          (tr ++ [.reviewedSubject sid]) := by
  have hzf : (count_nonzero v == 0) = false := by
    rw [beq_eq_false_iff_ne]
    exact hz
  simp only [loop_through_subjects, load_data, h, hzf, hre]
  simp [hpop]

theorem count_saves_append (l1 l2 : List RunAction) :
    count_saves (l1 ++ l2) = count_saves l1 + count_saves l2 := by
  induction l1 with
  | nil => simp [count_saves]
  | cons a rest ih =>
    show (if a = RunAction.calledSave then 1 else 0) + count_saves (rest ++ l2)
        = ((if a = RunAction.calledSave then 1 else 0) + count_saves rest)
            + count_saves l2
    rw [ih]
    omega

theorem count_saves_eq_zero {l : List RunAction}
    (h : ∀ a ∈ l, a ≠ RunAction.calledSave) : count_saves l = 0 := by
  induction l with
  | nil => rfl
  | cons a rest ih =>
    simp only [count_saves]
    rw [if_neg (h a (List.mem_cons_self _ _)),
        ih (fun b hb => h b (List.mem_cons.mpr (Or.inr hb)))]

theorem loop_preserve (cfg : RatingCfg) (loader : Str → Except Str Volume)
    (script : Str → List Event) (P : WorkflowState → Prop) (S : List Str)
    (hRE : ∀ (evs : List Event) (st st' : WorkflowState),
      st.current_subject_id ∈ S → run_events cfg evs st = some st' → P st → P st')
    (hCur : ∀ (st : WorkflowState) (sid : Str), sid ∈ S →
      P st → P {st with current_subject_id := sid})
    (hErase : ∀ (st : WorkflowState) (sid : Str), P st →
      P {st with ratings := dictErase st.ratings sid}) :
    ∀ (subs : List Str), (∀ s ∈ subs, s ∈ S) →
      ∀ (st : WorkflowState) (tr : List RunAction) (st' : WorkflowState)
        (tr' : List RunAction),
        loop_through_subjects cfg loader script subs st tr = .ok st' tr' →
        P st → P st' := by
  intro subs
  induction subs with
  | nil =>
    intro _ st tr st' tr' h hP
    rw [loop_nil] at h
    injection h with h1 h2
    exact h1 ▸ hP
  | cons subject_id rest ih =>
    intro hsubs st tr st' tr' h hP
    have hmem : subject_id ∈ S := hsubs subject_id (List.mem_cons_self _ _)
    have hrest : ∀ s ∈ rest, s ∈ S :=
      fun s hs => hsubs s (List.mem_cons.mpr (Or.inr hs))
    have hP0 : P {st with current_subject_id := subject_id} :=
      hCur st subject_id hmem hP
    cases hld : loader subject_id with
    | error msg =>
      rw [loop_load_error cfg loader script subject_id rest st tr msg hld] at h
      exact absurd h (by simp)
    | ok v =>
      by_cases hz : count_nonzero v = 0
      · rw [loop_skip cfg loader script subject_id rest st tr v hld hz] at h
        exact ih hrest _ _ _ _ h hP0
      · cases hre : run_events cfg (script subject_id)
            {st with current_subject_id := subject_id} with
        | none =>
          rw [loop_blocked cfg loader script subject_id rest st tr v hld hz hre] at h
          exact absurd h (by simp)
        | some st1 =>
          have hP1 : P st1 := hRE _ _ _ hmem hre hP0
          by_cases hpop : ((dictLookup st1.ratings subject_id).getD [])
              ∈ ratings_not_to_be_recorded
          · rw [loop_display_pop cfg loader script subject_id rest st tr v st1
                hld hz hre hpop] at h
            have hP2 : P {st1 with ratings := dictErase st1.ratings subject_id} :=
              hErase st1 subject_id hP1
            by_cases hq : st1.quit_now = true
            · rw [if_pos hq] at h
              injection h with h1 h2
              exact h1 ▸ hP2
            · rw [if_neg hq] at h
              exact ih hrest _ _ _ _ h hP2
          · rw [loop_display_keep cfg loader script subject_id rest st tr v st1
                hld hz hre hpop] at h
            by_cases hq : st1.quit_now = true
            · rw [if_pos hq] at h
              injection h with h1 h2
              exact h1 ▸ hP1
            · rw [if_neg hq] at h
              exact ih hrest _ _ _ _ h hP1

theorem loop_trace_extends (cfg : RatingCfg) (loader : Str → Except Str Volume)
    (script : Str → List Event) :
    ∀ (subs : List Str) (st : WorkflowState) (tr : List RunAction)
      (st' : WorkflowState) (tr' : List RunAction),
      loop_through_subjects cfg loader script subs st tr = .ok st' tr' →
      ∃ d, tr' = tr ++ d ∧ ∀ a ∈ d, a ≠ RunAction.calledSave := by
  intro subs
  induction subs with
  | nil =>
    intro st tr st' tr' h
    rw [loop_nil] at h
    injection h with h1 h2
    refine ⟨[], by rw [← h2, List.append_nil], ?_⟩
    intro a ha
    exact absurd ha (List.not_mem_nil a)
  | cons subject_id rest ih =>
    intro st tr st' tr' h
    cases hld : loader subject_id with
    | error msg =>
      rw [loop_load_error cfg loader script subject_id rest st tr msg hld] at h
      exact absurd h (by simp)
    | ok v =>
      by_cases hz : count_nonzero v = 0
      · rw [loop_skip cfg loader script subject_id rest st tr v hld hz] at h
        obtain ⟨d, hd, hds⟩ := ih _ _ _ _ h
        refine ⟨RunAction.skippedSubject subject_id :: d, ?_, ?_⟩
        · rw [hd, List.append_assoc]
          rfl
        · intro a ha
          rcases List.mem_cons.mp ha with h1 | h1
          · rw [h1]
            exact fun hc => RunAction.noConfusion hc
          · exact hds a h1
      · cases hre : run_events cfg (script subject_id)
            {st with current_subject_id := subject_id} with
        | none =>
          rw [loop_blocked cfg loader script subject_id rest st tr v hld hz hre] at h
          exact absurd h (by simp)
        | some st1 =>
          have hrev : ∀ (a : RunAction),
              a ∈ [RunAction.reviewedSubject subject_id] →
              a ≠ RunAction.calledSave := by
            intro a ha
            rw [List.mem_singleton.mp ha]
            exact fun hc => RunAction.noConfusion hc
          by_cases hpop : ((dictLookup st1.ratings subject_id).getD [])
              ∈ ratings_not_to_be_recorded
          · rw [loop_display_pop cfg loader script subject_id rest st tr v st1
                hld hz hre hpop] at h
            by_cases hq : st1.quit_now = true
            · rw [if_pos hq] at h
              injection h with h1 h2
              exact ⟨[RunAction.reviewedSubject subject_id], h2.symm, hrev⟩
            · rw [if_neg hq] at h
              obtain ⟨d, hd, hds⟩ := ih _ _ _ _ h
              refine ⟨RunAction.reviewedSubject subject_id :: d, ?_, ?_⟩
              · rw [hd, List.append_assoc]
                rfl
              · intro a ha
                rcases List.mem_cons.mp ha with h1 | h1
                · rw [h1]
                  exact fun hc => RunAction.noConfusion hc
                · exact hds a h1
          · rw [loop_display_keep cfg loader script subject_id rest st tr v st1
                hld hz hre hpop] at h
            by_cases hq : st1.quit_now = true
            · rw [if_pos hq] at h
              injection h with h1 h2
              exact ⟨[RunAction.reviewedSubject subject_id], h2.symm, hrev⟩
            · rw [if_neg hq] at h
              obtain ⟨d, hd, hds⟩ := ih _ _ _ _ h
              refine ⟨RunAction.reviewedSubject subject_id :: d, ?_, ?_⟩
              · rw [hd, List.append_assoc]
                rfl
              · intro a ha
                rcases List.mem_cons.mp ha with h1 | h1
                · rw [h1]
                  exact fun hc => RunAction.noConfusion hc
                · exact hds a h1

/-- C6: Every terminating full run — whether the rater quits early or
the incomplete list is exhausted — calls `save_ratings` exactly once: the
review loop itself never saves, and `cleanup` performs the single save as
the final action before the run reports itself finished. -/
theorem C6_save_called_exactly_once (cfg : RatingCfg)
    (loader : Str → Except Str Volume) (script : Str → List Event)
    (write_ok : Bool) (id_list : List Str) (fs : FileStore) (r : RunOut)
    (h : run cfg loader script write_ok id_list fs = .ok r) :
    count_saves r.trace = 1
    ∧ r.trace.getLast? = some RunAction.calledSave := by
  simp only [run] at h
  cases hl : loop_through_subjects cfg loader script
      (restore_previous_ratings fs id_list).2.2
      (initial_state cfg (restore_previous_ratings fs id_list).1
        (restore_previous_ratings fs id_list).2.1
        (restore_previous_ratings fs id_list).2.2) [] with
  | err e =>
    rw [hl] at h
    exact absurd h (by simp)
  | ok st tr =>
    rw [hl] at h
    have h2 : RunResult.ok
        ⟨st, (save_ratings write_ok st.ratings st.notes fs).fs,
         tr ++ [RunAction.calledSave],
         (save_ratings write_ok st.ratings st.notes fs).err⟩ = RunResult.ok r := h
    injection h2 with h1
    obtain ⟨d, hd, hds⟩ := loop_trace_extends cfg loader script _ _ _ _ _ hl
    have htr : r.trace = tr ++ [RunAction.calledSave] := by
      rw [← h1]
    rw [htr]
    constructor
    · rw [count_saves_append, hd, List.nil_append, count_saves_eq_zero hds]
      rfl
    · exact List.getLast?_concat tr

/-- Witness for C6: a run over an (already exhausted) incomplete list
terminates with exactly one save in its trace. -/
theorem C6_save_called_exactly_once_witness :
    run default_rating_cfg (fun _ => Except.error []) (fun _ => []) true [] []
      = RunResult.ok c6_example_result
    ∧ count_saves c6_example_result.trace = 1 :=
  ⟨by decide,
   (C6_save_called_exactly_once default_rating_cfg
     (fun _ => Except.error []) (fun _ => []) true [] [] c6_example_result
     (by decide)).1⟩

theorem parse_line_rating_ne_nil {line : Str} {t : Str × List Str × Str}
    (h : parse_line line = some t) : t.2.1 ≠ [] := by
  unfold parse_line at h
  split at h
  · injection h with h1
    rw [← h1]
    exact splitOnChar_ne_nil '+' _
  · exact Option.noConfusion h

theorem foldl_insert_values {γ : Type} {β : Type} (key : γ → Str) (val : γ → β)
    (Q : β → Prop) :
    ∀ (rows : List γ) (acc : List (Str × β)),
      (∀ r ∈ rows, Q (val r)) → (∀ p ∈ acc, Q p.2) →
      ∀ p ∈ rows.foldl (fun d r => dictInsert d (key r) (val r)) acc, Q p.2 := by
  intro rows
  induction rows with
  | nil =>
    intro acc _ hacc p hp
    exact hacc p hp
  | cons r rest ih =>
    intro acc hall hacc p hp
    rw [List.foldl_cons] at hp
    refine ih _ (fun q hq => hall q (List.mem_cons.mpr (Or.inr hq))) ?_ p hp
    intro q hq
    rcases mem_dictInsert hq with h1 | h1
    · rw [h1]
      exact hall r (List.mem_cons_self _ _)
    · exact hacc q h1

theorem restored_ratings_nonempty (fs : FileStore) (id_list : List Str) :
    ∀ p ∈ (restore_previous_ratings fs id_list).1, p.2 ≠ [] := by
  unfold restore_previous_ratings
  cases hc : dictLookup fs get_ratings_path_info.1 with
  | none =>
    intro p hp
    exact absurd hp (List.not_mem_nil p)
  | some content =>
    intro p hp
    have hp2 : p ∈ (parse_ratings_file content).1 := hp
    unfold parse_ratings_file at hp2
    refine foldl_insert_values (fun r : Str × List Str × Str => r.1)
      (fun r : Str × List Str × Str => r.2.1) (fun v => v ≠ [])
      _ [] ?_ ?_ p hp2
    · intro r hr
      rcases List.mem_filterMap.mp hr with ⟨line, _, hpl⟩
      exact parse_line_rating_ne_nil hpl
    · intro q hq
      exact absurd hq (List.not_mem_nil q)

/-- C5: An attempt to commit an empty rating-set is rejected as a
no-op (the gate before `capture_user_input` refuses, telling the rater to
finish), and consequently after a full review loop starting from a
restored session the ratings mapping never associates a subject with an
empty rating-set: ratings are absent or non-empty. -/
theorem C5_no_empty_rating_recorded (cfg : RatingCfg) :
    (∀ st : WorkflowState, st.checkbox.length = cfg.issue_list.length →
      get_ratings cfg st.checkbox = [] →
      next cfg st = {st with printed := st.printed ++ [Output.pleaseFinishRating]}
      ∧ quit cfg st
          = {st with printed := st.printed ++ [Output.pleaseFinishRating]})
    ∧ ∀ (loader : Str → Except Str Volume) (script : Str → List Event)
        (fs : FileStore) (id_list : List Str) (st' : WorkflowState)
        (tr' : List RunAction),
        loop_through_subjects cfg loader script
            (restore_previous_ratings fs id_list).2.2
            (initial_state cfg (restore_previous_ratings fs id_list).1
              (restore_previous_ratings fs id_list).2.1
              (restore_previous_ratings fs id_list).2.2) []
          = .ok st' tr' →
        (∀ p ∈ st'.ratings, p.2 ≠ [])
        ∧ ∀ (cb : List Bool) (l : Str),
            l ∈ get_ratings cfg cb → l ∈ cfg.issue_list := by
  have hvocab : ∀ (cb : List Bool) (l : Str),
      l ∈ get_ratings cfg cb → l ∈ cfg.issue_list := by
    intro cb l hl
    unfold get_ratings at hl
    rcases List.mem_map.mp hl with ⟨p, hp, hpl⟩
    have hz := List.mem_filter.mp hp
    exact hpl ▸ (List.of_mem_zip hz.1).1
  have hgate : ∀ st : WorkflowState,
      st.checkbox.length = cfg.issue_list.length →
      get_ratings cfg st.checkbox = [] →
      allowed_to_advance st.checkbox = false := by
    intro st hlen hempty
    cases ha : allowed_to_advance st.checkbox with
    | false => rfl
    | true =>
      exact absurd hempty (get_ratings_ne_nil cfg st.checkbox hlen ha)
  constructor
  · intro st hlen hempty
    have hneg : ¬ allowed_to_advance st.checkbox = true :=
      fun hc => Bool.false_ne_true ((hgate st hlen hempty) ▸ hc)
    unfold next quit
    rw [if_neg hneg, if_neg hneg]
    exact ⟨rfl, rfl⟩
  · intro loader script fs id_list st' tr' h
    have hP := loop_preserve cfg loader script
      (fun s => s.checkbox.length = cfg.issue_list.length
        ∧ ∀ p ∈ s.ratings, p.2 ≠ [])
      (restore_previous_ratings fs id_list).2.2
      ?_ ?_ ?_ (restore_previous_ratings fs id_list).2.2
      (fun s hs => hs) _ _ _ _ h ?_
    · exact ⟨hP.2, hvocab⟩
    · intro evs st st1 _ hre hPst
      refine run_events_preserve cfg
        (fun s => s.checkbox.length = cfg.issue_list.length
          ∧ ∀ p ∈ s.ratings, p.2 ≠ []) ?_ ?_ ?_ ?_ evs st st1 hre hPst
      · intro s i hP0
        exact ⟨by
          show (set_active cfg s.checkbox i).length = _
          rw [set_active_length]
          exact hP0.1, hP0.2⟩
      · intro s n hP0
        exact hP0
      · intro s hP0
        unfold next
        by_cases ha : allowed_to_advance s.checkbox = true
        · rw [if_pos ha]
          constructor
          · show (clear_checkboxes cfg s.checkbox false).length = _
            unfold clear_checkboxes
            rw [clear_from_length]
            exact hP0.1
          · intro p hp
            rcases mem_dictInsert hp with h1 | h1
            · rw [h1]
              exact get_ratings_ne_nil cfg s.checkbox hP0.1 ha
            · exact hP0.2 p h1
        · rw [if_neg ha]
          exact hP0
      · intro s hP0
        unfold quit
        by_cases ha : allowed_to_advance s.checkbox = true
        · rw [if_pos ha]
          constructor
          · show (clear_checkboxes cfg s.checkbox false).length = _
            unfold clear_checkboxes
            rw [clear_from_length]
            exact hP0.1
          · intro p hp
            rcases mem_dictInsert hp with h1 | h1
            · rw [h1]
              exact get_ratings_ne_nil cfg s.checkbox hP0.1 ha
            · exact hP0.2 p h1
        · rw [if_neg ha]
          exact hP0
    · intro s sid _ hP0
      exact hP0
    · intro s sid hP0
      refine ⟨hP0.1, ?_⟩
      intro p hp
      exact hP0.2 p (mem_dictErase hp)
    · constructor
      · show (List.replicate cfg.issue_list.length false).length = _
        rw [List.length_replicate]
      · intro p hp
        exact restored_ratings_nonempty fs id_list p hp

/-- Witness for C5: with nothing selected `next` is a pure no-op plus the
warning. -/
theorem C5_no_empty_rating_recorded_witness :
    ((WorkflowState.mk [false, false, false, false] [] [] []
        [("s1").data] (("s1").data) false []).checkbox.length
      = default_rating_cfg.issue_list.length
      ∧ get_ratings default_rating_cfg
          (WorkflowState.mk [false, false, false, false] [] [] []
            [("s1").data] (("s1").data) false []).checkbox = [])
    ∧ next default_rating_cfg
        (WorkflowState.mk [false, false, false, false] [] [] []
          [("s1").data] (("s1").data) false [])
      = {(WorkflowState.mk [false, false, false, false] [] [] []
          [("s1").data] (("s1").data) false []) with
          printed := [Output.pleaseFinishRating]} :=
  ⟨⟨by decide, by decide⟩,
   ((C5_no_empty_rating_recorded default_rating_cfg).1
     (WorkflowState.mk [false, false, false, false] [] [] []
       [("s1").data] (("s1").data) false []) (by decide) (by decide)).1⟩

theorem foldl_insert_keys_eq {γ : Type} {β1 β2 : Type} (key : γ → Str)
    (v1 : γ → β1) (v2 : γ → β2) :
    ∀ (rows : List γ) (acc1 : List (Str × β1)) (acc2 : List (Str × β2)),
      dictKeys acc1 = dictKeys acc2 →
      dictKeys (rows.foldl (fun d r => dictInsert d (key r) (v1 r)) acc1)
        = dictKeys (rows.foldl (fun d r => dictInsert d (key r) (v2 r)) acc2) := by
  intro rows
  induction rows with
  | nil =>
    intro acc1 acc2 h
    exact h
  | cons r rest ih =>
    intro acc1 acc2 h
    rw [List.foldl_cons, List.foldl_cons]
    apply ih
    rw [dictKeys_insert, dictKeys_insert, h]

theorem restored_keys_eq (fs : FileStore) (id_list : List Str) :
    dictKeys (restore_previous_ratings fs id_list).1
      = dictKeys (restore_previous_ratings fs id_list).2.1 := by
  unfold restore_previous_ratings
  cases hc : dictLookup fs get_ratings_path_info.1 with
  | none => rfl
  | some content =>
    show dictKeys (parse_ratings_file content).1
        = dictKeys (parse_ratings_file content).2
    unfold parse_ratings_file
    exact foldl_insert_keys_eq (fun r : Str × List Str × Str => r.1)
      (fun r : Str × List Str × Str => r.2.1)
      (fun r : Str × List Str × Str => r.2.2) _ [] [] rfl

theorem save_rows_isSome_of_keys {ratings : List (Str × List Str)}
    {notes : List (Str × Str)}
    (h : ∀ k ∈ dictKeys ratings, (dictLookup notes k).isSome) :
    (save_rows ratings notes).isSome := by
  induction ratings with
  | nil => rfl
  | cons p rest ih =>
    have hp : (dictLookup notes p.1).isSome := by
      refine h p.1 ?_
      show p.1 ∈ (p :: rest).map Prod.fst
      rw [List.map_cons]
      exact List.mem_cons_self _ _
    have htail := ih (fun k hk => h k (by
      show k ∈ (p :: rest).map Prod.fst
      rw [List.map_cons]
      exact List.mem_cons.mpr (Or.inr hk)))
    cases hn : dictLookup notes p.1 with
    | none => rw [hn] at hp; exact absurd hp (by simp)
    | some n =>
      cases hr : save_rows rest notes with
      | none => rw [hr] at htail; exact absurd htail (by simp)
      | some rs => simp [save_rows, hn, hr]

theorem save_ratings_err_none {ratings : List (Str × List Str)}
    {notes : List (Str × Str)} {fs : FileStore} {lines : Str}
    (h : save_lines ratings notes = some lines) :
    (save_ratings true ratings notes fs).err = none := by
  simp only [save_ratings, h]
  cases dictLookup fs get_ratings_path_info.1 <;> rfl

/-- C10: Every key of the ratings mapping is also a key of the notes
mapping: `capture_user_input` always writes both entries together, the
restored mappings share their keys, and the pop in the loop only shrinks
the ratings side — so `save_ratings`' per-subject lookup `notes[sid]` is
always defined and the save never raises a `KeyError` for a missing notes
entry (and with a healthy disk it succeeds outright). -/
theorem C10_notes_entry_for_every_rated (cfg : RatingCfg)
    (loader : Str → Except Str Volume) (script : Str → List Event)
    (write_ok : Bool) (id_list : List Str) (fs : FileStore) (r : RunOut) :
    (∀ st : WorkflowState, dictKeys st.ratings ⊆ dictKeys st.notes →
      dictKeys (capture_user_input cfg st).ratings
        ⊆ dictKeys (capture_user_input cfg st).notes)
    ∧ (run cfg loader script write_ok id_list fs = .ok r →
        dictKeys r.state.ratings ⊆ dictKeys r.state.notes
        ∧ (∃ lines, save_lines r.state.ratings r.state.notes = some lines)
        ∧ (write_ok = true → r.saveErr = none)) := by
  have hcap : ∀ st : WorkflowState, dictKeys st.ratings ⊆ dictKeys st.notes →
      dictKeys (capture_user_input cfg st).ratings
        ⊆ dictKeys (capture_user_input cfg st).notes := by
    intro st hsub x hx
    rcases mem_dictKeys_insert.mp hx with h1 | h1
    · exact mem_dictKeys_insert.mpr (Or.inl (hsub h1))
    · exact mem_dictKeys_insert.mpr (Or.inr h1)
  refine ⟨hcap, ?_⟩
  intro h
  simp only [run] at h
  cases hl : loop_through_subjects cfg loader script
      (restore_previous_ratings fs id_list).2.2
      (initial_state cfg (restore_previous_ratings fs id_list).1
        (restore_previous_ratings fs id_list).2.1
        (restore_previous_ratings fs id_list).2.2) [] with
  | err e =>
    rw [hl] at h
    exact absurd h (by simp)
  | ok st tr =>
    rw [hl] at h
    have h2 : RunResult.ok
        ⟨st, (save_ratings write_ok st.ratings st.notes fs).fs,
         tr ++ [RunAction.calledSave],
         (save_ratings write_ok st.ratings st.notes fs).err⟩ = RunResult.ok r := h
    injection h2 with h1
    have hsub : dictKeys st.ratings ⊆ dictKeys st.notes := by
      refine loop_preserve cfg loader script
        (fun s => dictKeys s.ratings ⊆ dictKeys s.notes)
        (restore_previous_ratings fs id_list).2.2
        ?_ ?_ ?_ (restore_previous_ratings fs id_list).2.2
        (fun s hs => hs) _ _ _ _ hl ?_
      · intro evs s0 s1 _ hre hP0
        refine run_events_preserve cfg
          (fun s => dictKeys s.ratings ⊆ dictKeys s.notes)
          ?_ ?_ ?_ ?_ evs s0 s1 hre hP0
        · intro s i hP
          exact hP
        · intro s n hP
          exact hP
        · intro s hP
          unfold next
          by_cases ha : allowed_to_advance s.checkbox = true
          · rw [if_pos ha]
            exact hcap s hP
          · rw [if_neg ha]
            exact hP
        · intro s hP
          unfold quit
          by_cases ha : allowed_to_advance s.checkbox = true
          · rw [if_pos ha]
            exact hcap s hP
          · rw [if_neg ha]
            exact hP
      · intro s sid _ hP
        exact hP
      · intro s sid hP
        intro x hx
        exact hP (dictKeys_erase_subset s.ratings sid hx)
      · intro x hx
        have hx2 : x ∈ dictKeys (restore_previous_ratings fs id_list).1 := hx
        show x ∈ dictKeys (restore_previous_ratings fs id_list).2.1
        rw [← restored_keys_eq fs id_list]
        exact hx2
    have hsome : (save_rows st.ratings st.notes).isSome :=
      save_rows_isSome_of_keys
        (fun k hk => dictLookup_isSome_of_mem (hsub hk))
    have hlines : ∃ lines, save_lines st.ratings st.notes = some lines := by
      unfold save_lines
      cases hr : save_rows st.ratings st.notes with
      | none => rw [hr] at hsome; exact absurd hsome (by simp)
      | some rows => exact ⟨joinChar '\n' rows, rfl⟩
    rw [← h1]
    refine ⟨hsub, hlines, ?_⟩
    intro hwt
    obtain ⟨lines, hlines2⟩ := hlines
    show (save_ratings write_ok st.ratings st.notes fs).err = none
    rw [hwt]
    exact save_ratings_err_none hlines2

/-- Witness for C10: after a real one-subject run, the rated subject has
a notes entry and the save succeeded. -/
theorem C10_notes_entry_for_every_rated_witness :
    run default_rating_cfg (fun _ => Except.ok [1])
        (fun _ => [Event.toggle 3, Event.pressQuit]) true [['a']] []
      = RunResult.ok c10_example_result
    ∧ dictKeys c10_example_result.state.ratings
        ⊆ dictKeys c10_example_result.state.notes :=
  ⟨by decide,
   ((C10_notes_entry_for_every_rated default_rating_cfg
     (fun _ => Except.ok [1]) (fun _ => [Event.toggle 3, Event.pressQuit])
     true [['a']] [] c10_example_result).2 (by decide)).1⟩

/-- C7 counterexample: The claim also covers a subject whose volume
*fails to load*.  In the code, `read_image`'s exception propagates out of
`loop_through_subjects` — nothing catches it — so with subjects `a, b`
and a loader that fails on `a`, the loop aborts with the load error
instead of skipping `a` and continuing: `b` is never reviewed and no
`ok` outcome is produced, contradicting "the review loop skips that
subject". -/
theorem C7_load_failure_counterexample :
    loop_through_subjects default_rating_cfg
        (fun _ => Except.error (("unreadable").data))
        (fun _ => [Event.toggle 3, Event.pressQuit])
        [['a'], ['b']]
        (initial_state default_rating_cfg [] [] [['a'], ['b']]) []
      = LoopResult.err (RunError.loadFail (("unreadable").data)) := by
  decide

/-- C7 (amended): A subject whose loaded volume is entirely empty
(all zero voxels) is skipped without any rating being recorded: the loop
continues with the remaining subjects unchanged, the trace records the
skip, the subject never enters the ratings mapping, and after the final
save it is still in the incomplete list of a future run.  A subject whose
volume fails to load, however, aborts the loop with the load error (also
recording nothing) rather than being skipped. -/
theorem C7_empty_volume_skipped (cfg : RatingCfg)
    (loader : Str → Except Str Volume) (script : Str → List Event)
    (sid : Str) (rest : List Str) (st : WorkflowState) (tr : List RunAction)
    (v : Volume) (st' : WorkflowState) (tr' : List RunAction)
    (hload : loader sid = Except.ok v) (hz : count_nonzero v = 0)
    (hok : loop_through_subjects cfg loader script (sid :: rest) st tr
        = .ok st' tr')
    (hnotin : sid ∉ dictKeys st.ratings) (hrest : sid ∉ rest) :
    loop_through_subjects cfg loader script (sid :: rest) st tr
      = loop_through_subjects cfg loader script rest
          {st with current_subject_id := sid} (tr ++ [.skippedSubject sid])
    ∧ RunAction.skippedSubject sid ∈ tr'
    ∧ sid ∉ dictKeys st'.ratings
    ∧ (∀ (all2 : List Str) (fs2 : FileStore), sid ∈ all2 →
        WFSession st'.ratings st'.notes →
        sid ∈ (restore_previous_ratings
            (save_ratings true st'.ratings st'.notes fs2).fs all2).2.2)
    ∧ (∀ (loader2 : Str → Except Str Volume) (sid2 : Str) (rest2 : List Str)
        (st2 : WorkflowState) (tr2 : List RunAction) (msg : Str),
        loader2 sid2 = Except.error msg →
        loop_through_subjects cfg loader2 script (sid2 :: rest2) st2 tr2
          = .err (.loadFail msg)) := by
  have hskip := loop_skip cfg loader script sid rest st tr v hload hz
  have hok2 : loop_through_subjects cfg loader script rest
      {st with current_subject_id := sid} (tr ++ [.skippedSubject sid])
      = .ok st' tr' := by
    rw [← hskip]
    exact hok
  have htrace : RunAction.skippedSubject sid ∈ tr' := by
    obtain ⟨d, hd, _⟩ := loop_trace_extends cfg loader script _ _ _ _ _ hok2
    rw [hd]
    refine List.mem_append.mpr (Or.inl ?_)
    exact List.mem_append.mpr (Or.inr (List.mem_singleton.mpr rfl))
  have hP3 : sid ∉ dictKeys st'.ratings := by
    refine loop_preserve cfg loader script
      (fun s => sid ∉ dictKeys s.ratings) rest
      ?_ ?_ ?_ rest (fun s hs => hs) _ _ _ _ hok2 hnotin
    · intro evs s0 s1 hc hre hP0
      have hgate : ∀ s : WorkflowState,
          (sid ∉ dictKeys s.ratings
            ∧ s.current_subject_id = s0.current_subject_id) →
          (sid ∉ dictKeys (capture_user_input cfg s).ratings) := by
        intro s hP hx
        rcases mem_dictKeys_insert.mp hx with h1 | h1
        · exact hP.1 h1
        · refine hrest ?_
          rw [h1, hP.2]
          exact hc
      have hnextP : ∀ s : WorkflowState,
          (sid ∉ dictKeys s.ratings
            ∧ s.current_subject_id = s0.current_subject_id) →
          (sid ∉ dictKeys (next cfg s).ratings
            ∧ (next cfg s).current_subject_id = s0.current_subject_id) := by
        intro s hP
        unfold next
        by_cases ha : allowed_to_advance s.checkbox = true
        · rw [if_pos ha]
          exact ⟨hgate s hP, hP.2⟩
        · rw [if_neg ha]
          exact hP
      have hquitP : ∀ s : WorkflowState,
          (sid ∉ dictKeys s.ratings
            ∧ s.current_subject_id = s0.current_subject_id) →
          (sid ∉ dictKeys (quit cfg s).ratings
            ∧ (quit cfg s).current_subject_id = s0.current_subject_id) := by
        intro s hP
        unfold quit
        by_cases ha : allowed_to_advance s.checkbox = true
        · rw [if_pos ha]
          exact ⟨hgate s hP, hP.2⟩
        · rw [if_neg ha]
          exact hP
      exact (run_events_preserve cfg
        (fun s => sid ∉ dictKeys s.ratings
          ∧ s.current_subject_id = s0.current_subject_id)
        (fun s i hP => hP) (fun s n hP => hP) hnextP hquitP
        evs s0 s1 hre ⟨hP0, rfl⟩).1
    · intro s s2 _ hP
      exact hP
    · intro s s2 hP hx
      exact hP (dictKeys_erase_subset s.ratings s2 hx)
  refine ⟨hskip, htrace, hP3, ?_, ?_⟩
  · intro all2 fs2 hmem hwf
    have hsome : (save_rows st'.ratings st'.notes).isSome :=
      save_rows_isSome hwf.2.2
    have hlines : ∃ lines, save_lines st'.ratings st'.notes = some lines := by
      unfold save_lines
      cases hrw : save_rows st'.ratings st'.notes with
      | none => rw [hrw] at hsome; exact absurd hsome (by simp)
      | some rows => exact ⟨joinChar '\n' rows, rfl⟩
    obtain ⟨lines, hsl⟩ := hlines
    have hfs : dictLookup (save_ratings true st'.ratings st'.notes fs2).fs
        get_ratings_path_info.1 = some lines := by
      simp only [save_ratings, hsl]
      cases hb : dictLookup fs2 get_ratings_path_info.1 with
      | none =>
        exact dictLookup_insert_self fs2 get_ratings_path_info.1 lines
      | some old =>
        exact dictLookup_insert_self _ get_ratings_path_info.1 lines
    unfold restore_previous_ratings
    rw [hfs]
    show sid ∈ incomplete_of all2 (parse_ratings_file lines).1
    have hparse := parse_ratings_file_of_save hwf hsl
    have h1 : (parse_ratings_file lines).1 = st'.ratings := by
      rw [hparse]
    rw [h1]
    unfold incomplete_of
    refine List.mem_filter.mpr ⟨hmem, ?_⟩
    unfold has_nonempty_rating
    rw [dictLookup_none_of_not_mem hP3]
    rfl
  · intro loader2 sid2 rest2 st2 tr2 msg hl2
    exact loop_load_error cfg loader2 script sid2 rest2 st2 tr2 msg hl2

/-- Witness for C7: over subjects `a` (empty volume) and `b`, the loop
skips `a`, reviews `b`, and `a` never enters the ratings mapping. -/
theorem C7_empty_volume_skipped_witness :
    loop_through_subjects default_rating_cfg
        (fun s => if s = ['a'] then Except.ok [0] else Except.ok [1])
        (fun _ => [Event.toggle 3, Event.pressQuit])
        [['a'], ['b']]
        (initial_state default_rating_cfg [] [] [['a'], ['b']]) []
      = LoopResult.ok
          ⟨[false, false, false, false], [], [(['b'], [("Pass").data])],
           [(['b'], [])], [['a'], ['b']], ['b'], true, []⟩
          [RunAction.skippedSubject ['a'], RunAction.reviewedSubject ['b']]
    ∧ RunAction.skippedSubject ['a']
        ∈ [RunAction.skippedSubject ['a'], RunAction.reviewedSubject ['b']] :=
  ⟨by decide,
   (C7_empty_volume_skipped default_rating_cfg
     (fun s => if s = ['a'] then Except.ok [0] else Except.ok [1])
     (fun _ => [Event.toggle 3, Event.pressQuit])
     ['a'] [['b']]
     (initial_state default_rating_cfg [] [] [['a'], ['b']]) []
     [0]
     ⟨[false, false, false, false], [], [(['b'], [("Pass").data])],
      [(['b'], [])], [['a'], ['b']], ['b'], true, []⟩
     [RunAction.skippedSubject ['a'], RunAction.reviewedSubject ['b']]
     (by rfl) (by decide) (by decide) (by decide) (by decide)).2.1⟩
